import Mathlib

/-! # FlexMem, the autoscaling in-memory index of libosmium

A shallow embedding of `include/osmium/index/map/flex_mem.hpp`.

* Identifiers (`uint64_t`) are natural numbers.  No identifier arithmetic of
  the class can overflow (`id >> 16`, `id & 0xffff`, `num + 1` with
  `num < 2^48`), so the functions are written over all of `Nat`.
* Memory is unbounded: growing a vector never throws `std::bad_alloc`, so
  the functions describe the calls that return.
* The two products computed in `std::size_t` are left unreduced, because
  they stay below `2^64` on every call that returns.  For
  `m_sparse_entries.size() * density_factor` in `set_sparse`, the size of a
  `std::vector<entry>` is at most `max_size() <= (2^63 - 1) / sizeof(entry)`.
  For `m_dense_blocks.size() * block_size` in `size()`, the product reaches
  `2^64` only for a table of `2^48` blocks, and `resize` to that length
  (`2^48` vectors of 24 bytes) throws `std::bad_alloc`.
* `std::vector` is `List`; `m_dense_blocks[i]` is `List.getD` with the empty
  block as default and `blocks[i][j] = v` is `List.set`.
* `std::sort` is only specified up to the order of equivalent elements: it
  is a parameter, any function that returns a sorted permutation
  (`StdSort`).  `std::lower_bound` is the halving loop of the standard
  library, so that it can also be run on a sequence that is not sorted.
* `osmium::index::empty_value<TValue>()` lives in `osmium/index/index.hpp`;
  it is a parameter (`EmptyValue`).
* The methods that index the block table also come in a bounds-checked form
  (`set_dense_checked` and the like), in which an access outside a vector is
  `none`; they are shown to agree with the total forms on reachable states.
-/

namespace osmium

/-- The value type comes with a distinguished empty value,
`osmium::index::empty_value<TValue>()`, declared in `osmium/index/index.hpp`. -/
class EmptyValue (V : Type) where
  empty_value : V

open EmptyValue (empty_value)

/-- The exception `osmium::not_found`, carrying the identifier that was
looked up. -/
structure not_found where
  id : Nat
deriving DecidableEq, Repr

/-- An entry in the sparse index. -/
structure entry (V : Type) where
  id : Nat
  value : V
deriving DecidableEq, Repr

/-- The comparison `entry::operator<`: entries are compared by identifier only. -/
def entry.lt {V : Type} (a other : entry V) : Prop := a.id < other.id

instance {V : Type} (a b : entry V) : Decidable (a.lt b) :=
  inferInstanceAs (Decidable (a.id < b.id))

/-- The constant `bits` of `enum constant_bits`. -/
def bits : Nat := 16

/-- The constant `block_size = 1ll << bits`. -/
def block_size : Nat := 1 <<< bits

/-- Minimum number of entries in the sparse index before a switch to the
dense index is considered. -/
def min_dense_entries : Nat := 0xffffff

/-- The constant `density_factor`. -/
def density_factor : Nat := 3

/-- The contract of `std::sort` with `entry::operator<`: the result is a
permutation of the input in which no element is less than an earlier one.
The order of entries with equal identifiers is left to the implementation. -/
structure StdSort (V : Type) where
  run : List (entry V) → List (entry V)
  perm : ∀ xs, (run xs).Perm xs
  sorted : ∀ xs, (run xs).Pairwise (fun a b => ¬ b.lt a)

/-- The resizing `std::vector::resize(n)`: truncate, or fill up with
value-initialised elements. -/
def vector_resize {α : Type} (xs : List α) (n : Nat) (d : α) : List α :=
  xs.take n ++ List.replicate (n - xs.length) d

/-- The loop of `std::lower_bound`: `first` is the start of the range still
searched and `len` its length; the first argument bounds the number of
iterations (`len` at least halves in each one). -/
def lower_bound_loop {V : Type} (xs : List (entry V)) (val : entry V) :
    Nat → Nat → Nat → Nat
  | 0, first, _ => first
  | fuel + 1, first, len =>
    if len = 0 then first
    else
      let half := len / 2
      let middle := first + half
      match xs[middle]? with
      | some m =>
        if m.lt val then lower_bound_loop xs val fuel (middle + 1) (len - half - 1)
        else lower_bound_loop xs val fuel first half
      | none => first

/-- The search `std::lower_bound(xs.begin(), xs.end(), val)`, as the index of
the iterator returned (`xs.length` for `end()`). -/
def lower_bound {V : Type} (xs : List (entry V)) (val : entry V) : Nat :=
  lower_bound_loop xs val xs.length 0 xs.length

/-- The state of a `FlexMem<TId, TValue>` object. -/
structure FlexMem (V : Type) where
  m_sparse_entries : List (entry V)
  m_dense_blocks : List (List V)
  m_max_id : Nat
  m_dense : Bool

namespace FlexMem

variable {V : Type}

/-- The block number `id >> bits`. -/
def block (id : Nat) : Nat := id >>> bits

/-- The position in the block, `id & (block_size - 1)`. -/
def offset (id : Nat) : Nat := id &&& (block_size - 1)

/-- Assure that the block with the given number exists. -/
def assure_block [EmptyValue V] (s : FlexMem V) (num : Nat) : FlexMem V :=
  let s1 :=
    if num ≥ s.m_dense_blocks.length then
      { s with m_dense_blocks := vector_resize s.m_dense_blocks (num + 1) [] }
    else s
  if (s1.m_dense_blocks.getD num []).isEmpty then
    let fresh : List V := List.replicate block_size empty_value
    { s1 with m_dense_blocks := List.set s1.m_dense_blocks num fresh }
  else s1

/-- The dense store: `set_dense`. -/
def set_dense [EmptyValue V] (s : FlexMem V) (id : Nat) (value : V) : FlexMem V :=
  let s1 := s.assure_block (block id)
  let blk := List.set (s1.m_dense_blocks.getD (block id) []) (offset id) value
  { s1 with m_dense_blocks := List.set s1.m_dense_blocks (block id) blk }

/-- The dense store: `get_dense`. -/
def get_dense [EmptyValue V] (s : FlexMem V) (id : Nat) : V :=
  if s.m_dense_blocks.length ≤ block id ∨ (s.m_dense_blocks.getD (block id) []).isEmpty then
    empty_value
  else
    (s.m_dense_blocks.getD (block id) []).getD (offset id) empty_value

/-- Switch from the sparse to the dense index; nothing happens in dense mode. -/
def switch_to_dense [EmptyValue V] (s : FlexMem V) : FlexMem V :=
  if s.m_dense then s
  else
    let s1 := s.m_sparse_entries.foldl (fun st e => st.set_dense e.id e.value) s
    { s1 with m_sparse_entries := [], m_max_id := 0, m_dense := true }

/-- The sparse store: `set_sparse`, with the heuristic that migrates. -/
def set_sparse [EmptyValue V] (s : FlexMem V) (id : Nat) (value : V) : FlexMem V :=
  let s1 := { s with m_sparse_entries := s.m_sparse_entries ++ [⟨id, value⟩] }
  if id > s1.m_max_id then
    let s2 := { s1 with m_max_id := id }
    if s2.m_sparse_entries.length ≥ min_dense_entries then
      if s2.m_max_id < s2.m_sparse_entries.length * density_factor then
        s2.switch_to_dense
      else s2
    else s2
  else s1

/-- The sparse store: `get_sparse`, a binary search in the current order. -/
def get_sparse [EmptyValue V] (s : FlexMem V) (id : Nat) : V :=
  let it := lower_bound s.m_sparse_entries ⟨id, empty_value⟩
  match s.m_sparse_entries[it]? with
  | none => empty_value
  | some e => if e.id ≠ id then empty_value else e.value

/-- The constructor `FlexMem(bool use_dense = false)`. -/
def init (use_dense : Bool) : FlexMem V :=
  { m_sparse_entries := [], m_dense_blocks := [], m_max_id := 0, m_dense := use_dense }

/-- The accessor `is_dense()`. -/
def is_dense (s : FlexMem V) : Bool := s.m_dense

/-- The accessor `size()`.  The product stays below `2^64` for every block
table that can be allocated, so it is the product of natural numbers. -/
def size (s : FlexMem V) : Nat :=
  if s.m_dense then s.m_dense_blocks.length * block_size
  else s.m_sparse_entries.length

/-- The method `set(id, value)`. -/
def set [EmptyValue V] (s : FlexMem V) (id : Nat) (value : V) : FlexMem V :=
  if s.m_dense then s.set_dense id value else s.set_sparse id value

/-- The method `get_noexcept(id)`. -/
def get_noexcept [EmptyValue V] (s : FlexMem V) (id : Nat) : V :=
  if s.m_dense then s.get_dense id else s.get_sparse id

/-- The method `get(id)`, which throws `not_found` for the empty value. -/
def get [EmptyValue V] [DecidableEq V] (s : FlexMem V) (id : Nat) : Except not_found V :=
  let value := s.get_noexcept id
  if value = empty_value then Except.error ⟨id⟩ else Except.ok value

/-- The method `clear()`. -/
def clear (s : FlexMem V) : FlexMem V :=
  { s with m_sparse_entries := [], m_dense_blocks := [], m_max_id := 0, m_dense := false }

/-- The method `sort()`: `std::sort` over the sparse entries. -/
def sort (S : StdSort V) (s : FlexMem V) : FlexMem V :=
  { s with m_sparse_entries := S.run s.m_sparse_entries }

/-- The diagnostics `stats()`: the numbers of used and of empty blocks. -/
def stats (s : FlexMem V) : Nat × Nat :=
  s.m_dense_blocks.foldl
    (fun (acc : Nat × Nat) b => if b.isEmpty then (acc.1, acc.2 + 1) else (acc.1 + 1, acc.2))
    (0, 0)

end FlexMem

/-- A call of a public method of the index. -/
inductive Op (V : Type) where
  | set (id : Nat) (value : V)
  | get (id : Nat)
  | get_noexcept (id : Nat)
  | clear
  | sort (S : StdSort V)
  | switch_to_dense

/-- The state after a call; `get` and `get_noexcept` are `const` methods. -/
def step {V : Type} [EmptyValue V] (s : FlexMem V) : Op V → FlexMem V
  | Op.set id value => s.set id value
  | Op.get _ => s
  | Op.get_noexcept _ => s
  | Op.clear => s.clear
  | Op.sort S => s.sort S
  | Op.switch_to_dense => s.switch_to_dense

/-- The state after a sequence of calls. -/
def run {V : Type} [EmptyValue V] (s : FlexMem V) (ops : List (Op V)) : FlexMem V :=
  ops.foldl step s

/-- A state that a `FlexMem` object can be in: constructed, then used through
its public methods. -/
def Reachable {V : Type} [EmptyValue V] (s : FlexMem V) : Prop :=
  ∃ (use_dense : Bool) (ops : List (Op V)), run (FlexMem.init use_dense) ops = s

/-- The calls `set(id_1, v_1), ..., set(id_n, v_n)` in this order. -/
def set_all {V : Type} [EmptyValue V] (s : FlexMem V) (ps : List (Nat × V)) : FlexMem V :=
  ps.foldl (fun st p => st.set p.1 p.2) s

/-- A straight insertion sort, one implementation of `std::sort`; it keeps
entries with equal identifiers in their order. -/
def insertion_sort {V : Type} : StdSort V where
  run := List.insertionSort (fun a b => a.id ≤ b.id)
  perm := fun xs => List.perm_insertionSort _ xs
  sorted := fun xs => by
    haveI : IsTotal (entry V) (fun a b => a.id ≤ b.id) := ⟨fun a b => Nat.le_total a.id b.id⟩
    haveI : IsTrans (entry V) (fun a b => a.id ≤ b.id) := ⟨fun _ _ _ h1 h2 => Nat.le_trans h1 h2⟩
    have h := List.sorted_insertionSort (fun a b : entry V => a.id ≤ b.id) xs
    exact h.imp (fun {a b} hab => by simp only [entry.lt]; omega)

instance : EmptyValue Nat := ⟨0⟩

/-- The value a block table holds for an identifier: the slot `offset id` of
block `block id`, the empty value where there is no such slot. -/
def slot {V : Type} [EmptyValue V] (bs : List (List V)) (id : Nat) : V :=
  (bs.getD (FlexMem.block id) []).getD (FlexMem.offset id) empty_value

/-- Every block of the table is absent (empty) or has `block_size` slots. -/
def blocks_ok {V : Type} (bs : List (List V)) : Prop :=
  ∀ b ∈ bs, b = [] ∨ b.length = block_size

/-- The block table after `set_dense(id, value)` on the table `bs`. -/
def write_blocks {V : Type} [EmptyValue V] (bs : List (List V)) (id : Nat) (value : V) :
    List (List V) :=
  (FlexMem.set_dense ⟨[], bs, 0, true⟩ id value).m_dense_blocks

/-- The block table after the loop of `switch_to_dense` over the entries `es`. -/
def write_all {V : Type} [EmptyValue V] (bs : List (List V)) (es : List (entry V)) :
    List (List V) :=
  es.foldl (fun b e => write_blocks b e.id e.value) bs

/-- The value of the last entry of `es` with identifier `id`, and `d` when
there is none. -/
def last_value {V : Type} (es : List (entry V)) (id : Nat) (d : V) : V :=
  es.foldl (fun acc e => if e.id = id then e.value else acc) d

/-- The representation invariant of the class: the blocks are well formed,
and the store that is not in use is empty. -/
def Inv {V : Type} (s : FlexMem V) : Prop :=
  blocks_ok s.m_dense_blocks ∧
  (s.m_dense = false → s.m_dense_blocks = []) ∧
  (s.m_dense = true → s.m_sparse_entries = [])

/-- Neither store holds anything for the identifier `id`. -/
def Untouched {V : Type} [EmptyValue V] (s : FlexMem V) (id : Nat) : Prop :=
  (∀ e ∈ s.m_sparse_entries, e.id ≠ id) ∧ slot s.m_dense_blocks id = empty_value

/-- The sparse entry made of a pair passed to `set`. -/
def to_entry {V : Type} (p : Nat × V) : entry V := ⟨p.1, p.2⟩

/-- The field `m_max_id` is the largest identifier among the sparse entries,
and 0 when there are none. -/
def max_id_ok {V : Type} (s : FlexMem V) : Prop :=
  (∀ e ∈ s.m_sparse_entries, e.id ≤ s.m_max_id) ∧
  (s.m_max_id = 0 ∨ ∃ e ∈ s.m_sparse_entries, e.id = s.m_max_id)

/-- Bounds-checked `assure_block`: every `operator[]` of the source is a
checked access, and `none` stands for an access outside its vector. -/
def FlexMem.assure_block_checked {V : Type} [EmptyValue V] (s : FlexMem V) (num : Nat) :
    Option (FlexMem V) :=
  let s1 :=
    if num ≥ s.m_dense_blocks.length then
      { s with m_dense_blocks := vector_resize s.m_dense_blocks (num + 1) [] }
    else s
  match s1.m_dense_blocks[num]? with
  | none => none
  | some b =>
    if b.isEmpty then
      let fresh : List V := List.replicate block_size empty_value
      some { s1 with m_dense_blocks := List.set s1.m_dense_blocks num fresh }
    else some s1

/-- Bounds-checked `set_dense`. -/
def FlexMem.set_dense_checked {V : Type} [EmptyValue V] (s : FlexMem V) (id : Nat) (value : V) :
    Option (FlexMem V) :=
  match s.assure_block_checked (FlexMem.block id) with
  | none => none
  | some s1 =>
    match s1.m_dense_blocks[FlexMem.block id]? with
    | none => none
    | some b =>
      if FlexMem.offset id < b.length then
        let blk := List.set b (FlexMem.offset id) value
        some { s1 with m_dense_blocks := List.set s1.m_dense_blocks (FlexMem.block id) blk }
      else none

/-- Bounds-checked `get_dense`; the second operand of `||` is evaluated only
when the first is false. -/
def FlexMem.get_dense_checked {V : Type} [EmptyValue V] (s : FlexMem V) (id : Nat) : Option V :=
  if s.m_dense_blocks.length ≤ FlexMem.block id then some empty_value
  else
    match s.m_dense_blocks[FlexMem.block id]? with
    | none => none
    | some b => if b.isEmpty then some empty_value else b[FlexMem.offset id]?

/-- Bounds-checked `switch_to_dense`. -/
def FlexMem.switch_to_dense_checked {V : Type} [EmptyValue V] (s : FlexMem V) :
    Option (FlexMem V) :=
  if s.m_dense then some s
  else
    match s.m_sparse_entries.foldl
        (fun st e => st.bind (fun t => t.set_dense_checked e.id e.value)) (some s) with
    | none => none
    | some s1 => some { s1 with m_sparse_entries := [], m_max_id := 0, m_dense := true }

/-- Bounds-checked `set_sparse`. -/
def FlexMem.set_sparse_checked {V : Type} [EmptyValue V] (s : FlexMem V) (id : Nat) (value : V) :
    Option (FlexMem V) :=
  let s1 := { s with m_sparse_entries := s.m_sparse_entries ++ [⟨id, value⟩] }
  if id > s1.m_max_id then
    let s2 := { s1 with m_max_id := id }
    if s2.m_sparse_entries.length ≥ min_dense_entries then
      if s2.m_max_id < s2.m_sparse_entries.length * density_factor then
        s2.switch_to_dense_checked
      else some s2
    else some s2
  else some s1

/-- Bounds-checked `set`. -/
def FlexMem.set_checked {V : Type} [EmptyValue V] (s : FlexMem V) (id : Nat) (value : V) :
    Option (FlexMem V) :=
  if s.m_dense then s.set_dense_checked id value else s.set_sparse_checked id value

/-- Bounds-checked `get_noexcept`; the sparse lookup makes no unchecked
access. -/
def FlexMem.get_noexcept_checked {V : Type} [EmptyValue V] (s : FlexMem V) (id : Nat) :
    Option V :=
  if s.m_dense then s.get_dense_checked id else some (s.get_sparse id)

/-! ## Arithmetic of block numbers and offsets -/

theorem block_size_eq : block_size = 65536 := rfl

theorem block_eq_div (id : Nat) : FlexMem.block id = id / 65536 := by
  unfold FlexMem.block bits
  rw [Nat.shiftRight_eq_div_pow]

theorem offset_eq_mod (id : Nat) : FlexMem.offset id = id % 65536 := by
  have h := Nat.and_pow_two_sub_one_eq_mod id 16
  simpa [FlexMem.offset, block_size, bits] using h

theorem offset_lt (id : Nat) : FlexMem.offset id < block_size := by
  rw [offset_eq_mod, block_size_eq]
  exact Nat.mod_lt _ (by decide)

theorem eq_of_block_offset {a b : Nat} (hb : FlexMem.block a = FlexMem.block b)
    (ho : FlexMem.offset a = FlexMem.offset b) : a = b := by
  rw [block_eq_div, block_eq_div] at hb
  rw [offset_eq_mod, offset_eq_mod] at ho
  omega

/-! ## The dense store -/

section dense
variable {V : Type}

theorem getD_nil_block (bs : List (List V)) (i : Nat) (h : bs.length ≤ i) :
    bs.getD i [] = [] := by
  rw [List.getD_eq_getElem?_getD, List.getElem?_eq_none h]
  rfl

theorem getD_mem_or_nil (bs : List (List V)) (i : Nat) :
    bs.getD i [] = [] ∨ bs.getD i [] ∈ bs := by
  by_cases h : i < bs.length
  · right
    rw [List.getD_eq_getElem?_getD, List.getElem?_eq_getElem h]
    exact List.getElem_mem h
  · left
    exact getD_nil_block bs i (by omega)

theorem vector_resize_grow (bs : List (List V)) (n : Nat) (h : bs.length ≤ n) :
    vector_resize bs n [] = bs ++ List.replicate (n - bs.length) [] := by
  unfold vector_resize
  rw [List.take_of_length_le h]

theorem getD_append_replicate_nil (bs : List (List V)) (k j : Nat) :
    (bs ++ List.replicate k []).getD j [] = bs.getD j [] := by
  simp only [List.getD_eq_getElem?_getD, List.getElem?_append, List.getElem?_replicate]
  by_cases h : j < bs.length
  · simp [h]
  · rw [if_neg h, List.getElem?_eq_none (by omega : bs.length ≤ j)]
    split <;> rfl

theorem getD_set_block (bs : List (List V)) (n i : Nat) (b : List V) (h : n < bs.length) :
    (List.set bs n b).getD i [] = if i = n then b else bs.getD i [] := by
  simp only [List.getD_eq_getElem?_getD, List.getElem?_set]
  by_cases hin : i = n
  · subst hin
    simp [h]
  · have : ¬ n = i := fun e => hin e.symm
    simp [hin, this]

variable [EmptyValue V]

theorem assure_block_length (s : FlexMem V) (num : Nat) :
    (s.assure_block num).m_dense_blocks.length = max s.m_dense_blocks.length (num + 1) := by
  unfold FlexMem.assure_block
  by_cases h : num ≥ s.m_dense_blocks.length
  · simp only [h, if_true]
    split <;> simp [vector_resize, List.length_set] <;> omega
  · simp only [h, if_false]
    split <;> simp [List.length_set] <;> omega

theorem assure_block_getD (s : FlexMem V) (num i : Nat) :
    (s.assure_block num).m_dense_blocks.getD i [] =
      if i = num ∧ (s.m_dense_blocks.getD num []).isEmpty = true then
        List.replicate block_size (empty_value : V)
      else s.m_dense_blocks.getD i [] := by
  unfold FlexMem.assure_block
  by_cases h : num ≥ s.m_dense_blocks.length
  · simp only [h, if_true]
    rw [vector_resize_grow _ _ (by omega)]
    simp only [getD_append_replicate_nil]
    have hnil : s.m_dense_blocks.getD num [] = [] := getD_nil_block _ _ h
    simp only [hnil, List.isEmpty_nil, if_true, and_true]
    rw [getD_set_block _ _ _ _ (by simp; omega)]
    simp only [getD_append_replicate_nil]
  · simp only [h, if_false]
    by_cases he : (s.m_dense_blocks.getD num []).isEmpty = true
    · simp only [he, if_true, and_true]
      rw [getD_set_block _ _ _ _ (by omega)]
    · simp only [he, if_false, and_false]
      simp

theorem assure_block_fields (s : FlexMem V) (num : Nat) :
    (s.assure_block num).m_sparse_entries = s.m_sparse_entries ∧
    (s.assure_block num).m_max_id = s.m_max_id ∧
    (s.assure_block num).m_dense = s.m_dense := by
  unfold FlexMem.assure_block
  by_cases h : num ≥ s.m_dense_blocks.length
  · simp only [h, if_true]
    split <;> simp
  · simp only [h, if_false]
    split <;> simp

theorem set_dense_eq (s : FlexMem V) (id : Nat) (v : V) :
    s.set_dense id v = { s with m_dense_blocks := write_blocks s.m_dense_blocks id v } := by
  cases s with
  | mk es bs m d =>
    unfold write_blocks FlexMem.set_dense FlexMem.assure_block
    by_cases h : FlexMem.block id ≥ bs.length
    · simp only [h, if_true]
      split <;> rfl
    · simp only [h, if_false]
      split <;> rfl

theorem write_blocks_getD (bs : List (List V)) (id : Nat) (v : V) (i : Nat) :
    (write_blocks bs id v).getD i [] =
      if i = FlexMem.block id then
        List.set (if (bs.getD i []).isEmpty = true then
          List.replicate block_size (empty_value : V) else bs.getD i []) (FlexMem.offset id) v
      else bs.getD i [] := by
  unfold write_blocks FlexMem.set_dense
  simp only
  rw [getD_set_block _ _ _ _ (by rw [assure_block_length]; omega)]
  by_cases h : i = FlexMem.block id
  · subst h
    simp only [if_true, assure_block_getD, true_and]
  · simp only [h, if_false, assure_block_getD, false_and]

theorem blocks_ok_write (bs : List (List V)) (id : Nat) (v : V) (h : blocks_ok bs) :
    blocks_ok (write_blocks bs id v) := by
  intro b hb
  obtain ⟨n, hn, rfl⟩ := List.mem_iff_getElem.mp hb
  have hg : (write_blocks bs id v).getD n [] = (write_blocks bs id v)[n] := by
    rw [List.getD_eq_getElem?_getD, List.getElem?_eq_getElem hn]
    rfl
  rw [← hg, write_blocks_getD]
  by_cases hi : n = FlexMem.block id
  · simp only [hi, if_true, List.length_set]
    split
    · right
      simp
    · rcases getD_mem_or_nil bs (FlexMem.block id) with h0 | hm
      · left
        rw [h0]
        rfl
      · rcases h _ hm with h0 | h1
        · left
          rw [h0]
          rfl
        · right
          exact h1
  · simp only [hi, if_false]
    rcases getD_mem_or_nil bs n with h0 | hm
    · left
      exact h0
    · exact h _ hm

theorem slot_write (bs : List (List V)) (id id2 : Nat) (v : V) (h : blocks_ok bs) :
    slot (write_blocks bs id v) id2 = if id2 = id then v else slot bs id2 := by
  unfold slot
  rw [write_blocks_getD]
  by_cases hb : FlexMem.block id2 = FlexMem.block id
  · simp only [hb, if_true]
    have hlen : (if (bs.getD (FlexMem.block id) []).isEmpty = true then
          List.replicate block_size (empty_value : V)
        else bs.getD (FlexMem.block id) []).length = block_size := by
      split
      · simp
      · rename_i hne
        rcases getD_mem_or_nil bs (FlexMem.block id) with h0 | hm
        · rw [h0] at hne
          simp at hne
        · rcases h _ hm with h0 | h1
          · rw [h0] at hne
            simp at hne
          · exact h1
    by_cases ho : FlexMem.offset id2 = FlexMem.offset id
    · have hid : id2 = id := eq_of_block_offset hb ho
      subst hid
      simp only [if_true]
      rw [List.getD_eq_getElem?_getD, List.getElem?_set, if_pos rfl, hlen,
        if_pos (offset_lt _)]
      rfl
    · have hid : ¬ id2 = id := fun e => ho (by rw [e])
      simp only [hid, if_false]
      rw [List.getD_eq_getElem?_getD, List.getElem?_set]
      have : ¬ FlexMem.offset id = FlexMem.offset id2 := fun e => ho e.symm
      simp only [this, if_false]
      split
      · rename_i hemp
        have hnil : bs.getD (FlexMem.block id) [] = [] := by
          simpa using hemp
        rw [hnil]
        simp [List.getElem?_replicate, offset_lt]
      · simp only [List.getD_eq_getElem?_getD]
  · have hid : ¬ id2 = id := fun e => hb (by rw [e])
    simp only [hb, hid, if_false]

theorem get_dense_eq_slot (s : FlexMem V) (id : Nat) :
    s.get_dense id = slot s.m_dense_blocks id := by
  unfold FlexMem.get_dense slot
  split
  · rename_i hc
    rcases hc with hl | he
    · rw [getD_nil_block _ _ hl]
      rfl
    · have hnil : s.m_dense_blocks.getD (FlexMem.block id) [] = [] := by
        simpa using he
      rw [hnil]
      rfl
  · rfl

theorem slot_nil (id : Nat) : slot ([] : List (List V)) id = empty_value := rfl

end dense

/-! ## The sparse store -/

section sparse
variable {V : Type}

/-- On a sorted sequence the loop of `std::lower_bound` ends, within the
iterations it is given, at the partition point of the identifiers. -/
theorem lower_bound_loop_spec (xs : List (entry V)) (val : entry V)
    (hs : xs.Pairwise (fun a b => ¬ b.lt a)) :
    ∀ (fuel first len : Nat), first + len ≤ xs.length → len ≤ fuel →
      (∀ i (h : i < xs.length), i < first → xs[i].id < val.id) →
      (∀ i (h : i < xs.length), first + len ≤ i → val.id ≤ xs[i].id) →
      lower_bound_loop xs val fuel first len ≤ xs.length ∧
      (∀ i (h : i < xs.length), i < lower_bound_loop xs val fuel first len →
        xs[i].id < val.id) ∧
      (∀ i (h : i < xs.length), lower_bound_loop xs val fuel first len ≤ i →
        val.id ≤ xs[i].id) := by
  have hsorted := List.pairwise_iff_getElem.mp hs
  intro fuel
  induction fuel with
  | zero =>
    intro first len hb hf hlo hhi
    have hlen : len = 0 := by omega
    subst hlen
    simp only [lower_bound_loop]
    exact ⟨by omega, hlo, fun i h hi => hhi i h (by omega)⟩
  | succ fuel ih =>
    intro first len hb hf hlo hhi
    by_cases hlen : len = 0
    · subst hlen
      simp only [lower_bound_loop, if_true]
      exact ⟨by omega, hlo, fun i h hi => hhi i h (by omega)⟩
    · have hmid : first + len / 2 < xs.length := by omega
      simp only [lower_bound_loop, hlen, if_false, List.getElem?_eq_getElem hmid]
      by_cases hlt : (xs[first + len / 2]).lt val
      · simp only [hlt, if_true]
        apply ih
        · omega
        · omega
        · intro i h hi
          by_cases him : i < first + len / 2
          · have := hsorted i (first + len / 2) h hmid him
            simp only [entry.lt] at this hlt
            omega
          · have him2 : i = first + len / 2 := by omega
            subst him2
            exact hlt
        · intro i h hi
          exact hhi i h (by omega)
      · simp only [hlt, if_false]
        apply ih
        · omega
        · omega
        · exact hlo
        · intro i h hi
          by_cases him : first + len / 2 < i
          · have := hsorted (first + len / 2) i hmid h him
            simp only [entry.lt] at this hlt
            omega
          · have him2 : i = first + len / 2 := by omega
            subst him2
            simp only [entry.lt] at hlt
            omega

theorem lower_bound_spec (xs : List (entry V)) (val : entry V)
    (hs : xs.Pairwise (fun a b => ¬ b.lt a)) :
    lower_bound xs val ≤ xs.length ∧
    (∀ i (h : i < xs.length), i < lower_bound xs val → xs[i].id < val.id) ∧
    (∀ i (h : i < xs.length), lower_bound xs val ≤ i → val.id ≤ xs[i].id) := by
  unfold lower_bound
  apply lower_bound_loop_spec xs val hs
  · omega
  · omega
  · intro i _ hi
    omega
  · intro i h hi
    omega

variable [EmptyValue V]

/-- Whatever the order of the entries, `get_sparse` returns the empty value
or the value of an entry with the identifier looked up. -/
theorem get_sparse_cases (s : FlexMem V) (id : Nat) :
    s.get_sparse id = empty_value ∨
      ∃ e ∈ s.m_sparse_entries, e.id = id ∧ s.get_sparse id = e.value := by
  unfold FlexMem.get_sparse
  simp only
  split
  · left
    rfl
  · rename_i e he
    by_cases hid : e.id = id
    · right
      refine ⟨e, List.getElem?_mem he, hid, ?_⟩
      simp [hid]
    · left
      simp [hid]

theorem get_sparse_absent (s : FlexMem V) (id : Nat)
    (h : ∀ e ∈ s.m_sparse_entries, e.id ≠ id) : s.get_sparse id = empty_value := by
  rcases get_sparse_cases s id with h0 | ⟨e, he, hid, _⟩
  · exact h0
  · exact absurd hid (h e he)

/-- On a sorted sequence `get_sparse` finds an entry with the identifier
looked up whenever there is one. -/
theorem get_sparse_sorted (s : FlexMem V) (id : Nat)
    (hs : s.m_sparse_entries.Pairwise (fun a b => ¬ b.lt a))
    (hex : ∃ e ∈ s.m_sparse_entries, e.id = id) :
    ∃ e ∈ s.m_sparse_entries, e.id = id ∧ s.get_sparse id = e.value := by
  obtain ⟨e0, he0, hid0⟩ := hex
  obtain ⟨n, hn, hne⟩ := List.mem_iff_getElem.mp he0
  obtain ⟨_, hlo, hhi⟩ := lower_bound_spec s.m_sparse_entries ⟨id, empty_value⟩ hs
  have hsorted := List.pairwise_iff_getElem.mp hs
  have hrn : lower_bound s.m_sparse_entries ⟨id, empty_value⟩ ≤ n := by
    by_contra hc
    have := hlo n hn (by omega)
    rw [hne, hid0] at this
    simp at this
  have hr : lower_bound s.m_sparse_entries ⟨id, empty_value⟩ < s.m_sparse_entries.length := by
    omega
  have h1 := hhi _ hr (le_refl _)
  have h2 : (s.m_sparse_entries[lower_bound s.m_sparse_entries ⟨id, empty_value⟩]).id ≤ id := by
    rcases Nat.lt_or_ge (lower_bound s.m_sparse_entries ⟨id, empty_value⟩) n with hl | hge
    · have := hsorted _ n hr hn hl
      rw [hne] at this
      simp only [entry.lt] at this
      omega
    · have hnn : n = lower_bound s.m_sparse_entries ⟨id, empty_value⟩ := by omega
      have hh : s.m_sparse_entries[lower_bound s.m_sparse_entries ⟨id, empty_value⟩] = e0 := by
        rw [← hne]
        congr 1
        exact hnn.symm
      rw [hh, hid0]
  simp only at h1
  have hid : (s.m_sparse_entries[lower_bound s.m_sparse_entries ⟨id, empty_value⟩]).id = id := by
    omega
  refine ⟨_, List.getElem_mem hr, hid, ?_⟩
  unfold FlexMem.get_sparse
  simp only [List.getElem?_eq_getElem hr, hid, ne_eq, not_true_eq_false, if_false]

end sparse

/-! ## Migration and the representation invariant -/

section invariant
variable {V : Type}

theorem blocks_ok_nil : blocks_ok ([] : List (List V)) := by
  intro b hb
  cases hb

theorem last_value_absent (es : List (entry V)) (id : Nat) (d : V)
    (h : ∀ e ∈ es, e.id ≠ id) : last_value es id d = d := by
  induction es generalizing d with
  | nil => rfl
  | cons e es ih =>
    have he : e.id ≠ id := h e (List.mem_cons_self _ _)
    simp only [last_value, List.foldl_cons, he, if_false]
    exact ih d (fun x hx => h x (List.mem_cons_of_mem _ hx))

variable [EmptyValue V]

theorem blocks_ok_write_all (es : List (entry V)) :
    ∀ bs : List (List V), blocks_ok bs → blocks_ok (write_all bs es) := by
  induction es with
  | nil => intro bs h; exact h
  | cons e es ih =>
    intro bs h
    exact ih _ (blocks_ok_write bs e.id e.value h)

theorem slot_write_all (es : List (entry V)) (id : Nat) :
    ∀ bs : List (List V), blocks_ok bs →
      slot (write_all bs es) id = last_value es id (slot bs id) := by
  induction es with
  | nil => intro bs _; rfl
  | cons e es ih =>
    intro bs h
    have h1 := ih _ (blocks_ok_write bs e.id e.value h)
    have h2 := slot_write bs e.id id e.value h
    simp only [write_all, last_value, List.foldl_cons] at h1 ⊢
    rw [h1, h2]
    by_cases hid : e.id = id
    · simp [hid]
    · have : ¬ id = e.id := fun x => hid x.symm
      simp [hid, this]

theorem foldl_set_dense (es : List (entry V)) :
    ∀ s : FlexMem V, es.foldl (fun st e => st.set_dense e.id e.value) s =
      { s with m_dense_blocks := write_all s.m_dense_blocks es } := by
  induction es with
  | nil => intro s; rfl
  | cons e es ih =>
    intro s
    simp only [List.foldl_cons, write_all]
    rw [ih, set_dense_eq]
    rfl

theorem switch_to_dense_sparse (s : FlexMem V) (h : s.m_dense = false) :
    s.switch_to_dense =
      ⟨[], write_all s.m_dense_blocks s.m_sparse_entries, 0, true⟩ := by
  unfold FlexMem.switch_to_dense
  simp only [h, Bool.false_eq_true, if_false]
  rw [foldl_set_dense]

theorem switch_to_dense_dense (s : FlexMem V) (h : s.m_dense = true) :
    s.switch_to_dense = s := by
  unfold FlexMem.switch_to_dense
  simp [h]

theorem set_sparse_cases (s : FlexMem V) (id : Nat) (v : V) (h : s.m_dense = false) :
    (s.set_sparse id v =
        { s with m_sparse_entries := s.m_sparse_entries ++ [⟨id, v⟩],
                 m_max_id := max s.m_max_id id } ∧
      ¬ (id > s.m_max_id ∧ s.m_sparse_entries.length + 1 ≥ min_dense_entries ∧
          id < (s.m_sparse_entries.length + 1) * density_factor)) ∨
    (s.set_sparse id v =
        ⟨[], write_all s.m_dense_blocks (s.m_sparse_entries ++ [⟨id, v⟩]), 0, true⟩ ∧
      (id > s.m_max_id ∧ s.m_sparse_entries.length + 1 ≥ min_dense_entries ∧
          id < (s.m_sparse_entries.length + 1) * density_factor)) := by
  unfold FlexMem.set_sparse
  dsimp only
  rw [List.length_append, List.length_singleton]
  by_cases h1 : id > s.m_max_id
  · rw [if_pos h1]
    by_cases h2 : s.m_sparse_entries.length + 1 ≥ min_dense_entries
    · rw [if_pos h2]
      by_cases h3 : id < (s.m_sparse_entries.length + 1) * density_factor
      · right
        rw [if_pos h3]
        refine ⟨?_, h1, h2, h3⟩
        rw [switch_to_dense_sparse]
        exact h
      · left
        rw [if_neg h3]
        refine ⟨?_, fun hc => h3 hc.2.2⟩
        have : max s.m_max_id id = id := by omega
        rw [this]
    · left
      rw [if_neg h2]
      refine ⟨?_, fun hc => h2 hc.2.1⟩
      have : max s.m_max_id id = id := by omega
      rw [this]
  · left
    rw [if_neg h1]
    refine ⟨?_, fun hc => h1 hc.1⟩
    have : max s.m_max_id id = s.m_max_id := by omega
    rw [this]

end invariant

/-! ## Reachable states -/

section reachable
variable {V : Type}

theorem Inv_init (use_dense : Bool) : Inv (FlexMem.init use_dense : FlexMem V) :=
  ⟨blocks_ok_nil, fun _ => rfl, fun _ => rfl⟩

theorem Inv_sort (S : StdSort V) (s : FlexMem V) (h : Inv s) : Inv (s.sort S) := by
  obtain ⟨hb, hs, hd⟩ := h
  refine ⟨hb, hs, fun hm => ?_⟩
  have he : s.m_sparse_entries = [] := hd hm
  have hp := S.perm s.m_sparse_entries
  rw [he] at hp
  simp only [FlexMem.sort, he]
  exact List.Perm.eq_nil hp

theorem Inv_clear (s : FlexMem V) : Inv s.clear :=
  ⟨blocks_ok_nil, fun _ => rfl, fun _ => rfl⟩

variable [EmptyValue V]

theorem Inv_set (s : FlexMem V) (id : Nat) (v : V) (h : Inv s) : Inv (s.set id v) := by
  obtain ⟨hb, hs, hd⟩ := h
  unfold FlexMem.set
  cases hm : s.m_dense with
  | true =>
    simp only [if_true]
    rw [set_dense_eq]
    exact ⟨blocks_ok_write _ _ _ hb, fun h2 => by simp [hm] at h2, fun _ => hd hm⟩
  | false =>
    simp only [Bool.false_eq_true, if_false]
    rcases set_sparse_cases s id v hm with ⟨he, _⟩ | ⟨he, _⟩
    · rw [he]
      exact ⟨hb, fun _ => hs hm, fun h2 => by simp [hm] at h2⟩
    · rw [he]
      exact ⟨blocks_ok_write_all _ _ hb, fun h2 => by simp at h2, fun _ => rfl⟩

theorem Inv_switch_to_dense (s : FlexMem V) (h : Inv s) : Inv s.switch_to_dense := by
  cases hm : s.m_dense with
  | true => rw [switch_to_dense_dense s hm]; exact h
  | false =>
    rw [switch_to_dense_sparse s hm]
    exact ⟨blocks_ok_write_all _ _ h.1, fun h2 => by simp at h2, fun _ => rfl⟩

theorem Inv_step (s : FlexMem V) (op : Op V) (h : Inv s) : Inv (step s op) := by
  cases op with
  | set id v => exact Inv_set s id v h
  | get id => exact h
  | get_noexcept id => exact h
  | clear => exact Inv_clear s
  | sort S => exact Inv_sort S s h
  | switch_to_dense => exact Inv_switch_to_dense s h

theorem Inv_run (ops : List (Op V)) : ∀ s : FlexMem V, Inv s → Inv (run s ops) := by
  induction ops with
  | nil => intro s h; exact h
  | cons op ops ih => intro s h; exact ih _ (Inv_step s op h)

theorem Inv_of_reachable (s : FlexMem V) (h : Reachable s) : Inv s := by
  obtain ⟨d, ops, rfl⟩ := h
  exact Inv_run ops _ (Inv_init d)

theorem reachable_init (use_dense : Bool) : Reachable (FlexMem.init use_dense : FlexMem V) :=
  ⟨use_dense, [], rfl⟩

theorem reachable_step (s : FlexMem V) (op : Op V) (h : Reachable s) :
    Reachable (step s op) := by
  obtain ⟨d, ops, rfl⟩ := h
  refine ⟨d, ops ++ [op], ?_⟩
  simp [run, List.foldl_append]

theorem get_noexcept_dense (s : FlexMem V) (id : Nat) (h : s.m_dense = true) :
    s.get_noexcept id = slot s.m_dense_blocks id := by
  unfold FlexMem.get_noexcept
  rw [if_pos h, get_dense_eq_slot]

theorem get_noexcept_sparse (s : FlexMem V) (id : Nat) (h : s.m_dense = false) :
    s.get_noexcept id = s.get_sparse id := by
  unfold FlexMem.get_noexcept
  simp [h]

theorem get_noexcept_untouched (s : FlexMem V) (id : Nat) (h : Untouched s id) :
    s.get_noexcept id = empty_value := by
  cases hm : s.m_dense with
  | true => rw [get_noexcept_dense s id hm]; exact h.2
  | false => rw [get_noexcept_sparse s id hm]; exact get_sparse_absent s id h.1

theorem Untouched_init (use_dense : Bool) (id : Nat) :
    Untouched (FlexMem.init use_dense : FlexMem V) id :=
  ⟨fun e he => absurd he (List.not_mem_nil e), rfl⟩

theorem Untouched_step (s : FlexMem V) (op : Op V) (id : Nat) (hi : Inv s)
    (h : Untouched s id) (hop : ∀ v, op ≠ Op.set id v) : Untouched (step s op) id := by
  obtain ⟨he, hsl⟩ := h
  cases op with
  | set id2 v =>
    have hne : id2 ≠ id := fun e => hop v (by rw [e])
    have hne2 : ¬ id = id2 := fun e => hne e.symm
    simp only [step, FlexMem.set]
    cases hm : s.m_dense with
    | true =>
      simp only [if_true]
      rw [set_dense_eq]
      refine ⟨he, ?_⟩
      simp only
      rw [slot_write _ _ _ _ hi.1, if_neg hne2]
      exact hsl
    | false =>
      simp only [Bool.false_eq_true, if_false]
      have hall : ∀ e ∈ s.m_sparse_entries ++ [⟨id2, v⟩], e.id ≠ id := by
        intro e hmem
        rcases List.mem_append.mp hmem with h1 | h1
        · exact he e h1
        · rw [List.mem_singleton.mp h1]
          exact hne
      rcases set_sparse_cases s id2 v hm with ⟨hs, _⟩ | ⟨hs, _⟩
      · rw [hs]
        exact ⟨hall, hsl⟩
      · rw [hs]
        refine ⟨fun e hmem => absurd hmem (List.not_mem_nil e), ?_⟩
        simp only
        rw [slot_write_all _ _ _ hi.1, last_value_absent _ _ _ hall]
        exact hsl
  | get _ => exact ⟨he, hsl⟩
  | get_noexcept _ => exact ⟨he, hsl⟩
  | clear => exact ⟨fun e hmem => absurd hmem (List.not_mem_nil e), rfl⟩
  | sort S =>
    refine ⟨fun e hmem => ?_, hsl⟩
    exact he e ((S.perm s.m_sparse_entries).mem_iff.mp hmem)
  | switch_to_dense =>
    simp only [step]
    cases hm : s.m_dense with
    | true => rw [switch_to_dense_dense s hm]; exact ⟨he, hsl⟩
    | false =>
      rw [switch_to_dense_sparse s hm]
      refine ⟨fun e hmem => absurd hmem (List.not_mem_nil e), ?_⟩
      simp only
      rw [slot_write_all _ _ _ hi.1, last_value_absent _ _ _ he]
      exact hsl

theorem Untouched_run (ops : List (Op V)) (id : Nat) :
    ∀ s : FlexMem V, Inv s → Untouched s id → (∀ v, Op.set id v ∉ ops) →
      Untouched (run s ops) id := by
  induction ops with
  | nil => intro s _ h _; exact h
  | cons op ops ih =>
    intro s hi h hops
    refine ih _ (Inv_step s op hi) (Untouched_step s op id hi h ?_) ?_
    · intro v hv
      exact hops v (by rw [hv]; exact List.mem_cons_self _ _)
    · intro v hv
      exact hops v (List.mem_cons_of_mem _ hv)

end reachable

/-! ## Round trip and absence -/

section lookups
variable {V : Type}

theorem last_value_append_same (es : List (entry V)) (id : Nat) (v d : V) :
    last_value (es ++ [⟨id, v⟩]) id d = v := by
  simp [last_value, List.foldl_append]

variable [EmptyValue V]

theorem get_noexcept_sort_dense (S : StdSort V) (s : FlexMem V) (id : Nat)
    (h : s.m_dense = true) : (s.sort S).get_noexcept id = s.get_noexcept id := by
  rw [get_noexcept_dense s id h, get_noexcept_dense (s.sort S) id h]
  rfl

/-- A sorted sparse index returns the value of some entry stored under the
identifier, provided there is one. -/
theorem get_noexcept_sorted_sparse (S : StdSort V) (s : FlexMem V) (id : Nat)
    (hm : s.m_dense = false) (hex : ∃ e ∈ s.m_sparse_entries, e.id = id) :
    ∃ e ∈ s.m_sparse_entries, e.id = id ∧ (s.sort S).get_noexcept id = e.value := by
  have hperm := S.perm s.m_sparse_entries
  rw [get_noexcept_sparse (s.sort S) id hm]
  obtain ⟨e0, he0, hid0⟩ := hex
  obtain ⟨e, he, hid, hv⟩ := get_sparse_sorted (s.sort S) id (S.sorted _)
    ⟨e0, hperm.mem_iff.mpr he0, hid0⟩
  exact ⟨e, hperm.mem_iff.mp he, hid, hv⟩

end lookups

/-- C1, as stated, fails: on the sparse index that holds `(5, 1)`, the call
`set(5, 2)` followed by `sort()` (a straight insertion sort) leaves the
lookup of `5` at the older value `1`, although `2` is not the empty value. -/
theorem round_trip_fails_on_duplicate :
    Reachable ((FlexMem.init false).set 5 1 : FlexMem Nat) ∧
    (2 : Nat) ≠ empty_value ∧
    ((((FlexMem.init false).set 5 1).set 5 2).sort insertion_sort).m_dense = false ∧
    ((((FlexMem.init false).set 5 1).set 5 2).sort insertion_sort).get_noexcept 5 ≠ 2 := by
  refine ⟨⟨false, [Op.set 5 1], rfl⟩, ?_, ?_, ?_⟩ <;> decide

/-- C1, amended: for every reachable state whose sparse entries under `id`
(if any) all carry the value `v`, after `set(id, v)` and `sort()` the lookup
`get_noexcept(id)` returns `v`; and when the index is dense after the `set`,
the lookup returns `v` without any `sort()`. -/
theorem round_trip {V : Type} [EmptyValue V] (S : StdSort V) (s : FlexMem V) (id : Nat) (v : V)
    (hr : Reachable s) (hdup : ∀ e ∈ s.m_sparse_entries, e.id = id → e.value = v) :
    ((s.set id v).sort S).get_noexcept id = v ∧
    ((s.set id v).m_dense = true → (s.set id v).get_noexcept id = v) := by
  have hi := Inv_of_reachable s hr
  have hdense : (s.set id v).m_dense = true → (s.set id v).get_noexcept id = v := by
    intro hd
    rw [get_noexcept_dense _ _ hd]
    unfold FlexMem.set at hd ⊢
    cases hm : s.m_dense with
    | true =>
      simp only [if_true]
      rw [set_dense_eq]
      simp only
      rw [slot_write _ _ _ _ hi.1, if_pos rfl]
    | false =>
      simp only [hm, Bool.false_eq_true, if_false] at hd ⊢
      rcases set_sparse_cases s id v hm with ⟨hs, _⟩ | ⟨hs, _⟩
      · rw [hs] at hd
        simp [hm] at hd
      · rw [hs]
        simp only
        rw [slot_write_all _ _ _ hi.1, last_value_append_same]
  refine ⟨?_, hdense⟩
  cases hd : (s.set id v).m_dense with
  | true => rw [get_noexcept_sort_dense S _ id hd]; exact hdense hd
  | false =>
    have hm : s.m_dense = false := by
      cases hm : s.m_dense with
      | false => rfl
      | true =>
        unfold FlexMem.set at hd
        simp only [hm, if_true] at hd
        rw [set_dense_eq] at hd
        simp [hm] at hd
    have hs : s.set id v = { s with m_sparse_entries := s.m_sparse_entries ++ [⟨id, v⟩],
                                    m_max_id := max s.m_max_id id } := by
      have hset : s.set id v = s.set_sparse id v := by
        unfold FlexMem.set
        simp [hm]
      rcases set_sparse_cases s id v hm with ⟨hs, _⟩ | ⟨hs, _⟩
      · rw [hset, hs]
      · rw [hset, hs] at hd
        simp at hd
    obtain ⟨e, he, hid, hv⟩ := get_noexcept_sorted_sparse S (s.set id v) id hd
      ⟨⟨id, v⟩, by rw [hs]; simp, rfl⟩
    rw [hv]
    rw [hs] at he
    rcases List.mem_append.mp he with h1 | h1
    · exact hdup e h1 hid
    · rw [List.mem_singleton.mp h1]

/-- Witness of `round_trip`: the sparse index that holds `(3, 7)`, then
`set(5, 1)`. -/
theorem round_trip_witness :
    Reachable ((FlexMem.init false).set 3 7 : FlexMem Nat) ∧
    (∀ e ∈ ((FlexMem.init false).set 3 7 : FlexMem Nat).m_sparse_entries,
      e.id = 5 → e.value = 1) ∧
    (((((FlexMem.init false).set 3 7).set 5 1).sort insertion_sort).get_noexcept 5 = 1 ∧
      ((((FlexMem.init false).set 3 7).set 5 1).m_dense = true →
        (((FlexMem.init false).set 3 7).set 5 1).get_noexcept 5 = 1)) :=
  ⟨⟨false, [Op.set 3 7], rfl⟩, by decide,
    round_trip insertion_sort _ 5 1 ⟨false, [Op.set 3 7], rfl⟩ (by decide)⟩

/-- C2: in the state after any sequence of calls on a freshly constructed
index (sparse or dense), an identifier that was never passed to `set` is
looked up as the empty value by `get_noexcept`, and `get` fails with
`not_found` for it. -/
theorem never_set_is_absent {V : Type} [EmptyValue V] [DecidableEq V] (use_dense : Bool)
    (ops : List (Op V)) (id : Nat) (h : ∀ v, Op.set id v ∉ ops) :
    (run (FlexMem.init use_dense) ops).get_noexcept id = empty_value ∧
    (run (FlexMem.init use_dense) ops).get id = Except.error ⟨id⟩ := by
  have hu := Untouched_run ops id _ (Inv_init use_dense) (Untouched_init use_dense id) h
  have hg := get_noexcept_untouched _ id hu
  refine ⟨hg, ?_⟩
  unfold FlexMem.get
  simp only [hg, if_true]

/-- Witness of `never_set_is_absent`: identifiers 2 and 1 are set without a
sort, then 9 is looked up. -/
theorem never_set_is_absent_witness :
    (∀ v, Op.set 9 v ∉ [Op.set 2 1, Op.set 1 (2 : Nat)]) ∧
    ((run (FlexMem.init false) [Op.set 2 1, Op.set 1 (2 : Nat)]).get_noexcept 9 = empty_value ∧
      (run (FlexMem.init false) [Op.set 2 1, Op.set 1 (2 : Nat)]).get 9 = Except.error ⟨9⟩) :=
  ⟨by simp, never_set_is_absent false [Op.set 2 1, Op.set 1 (2 : Nat)] 9 (by simp)⟩

/-- C3: `get(id)` fails exactly when `get_noexcept(id)` is the empty value,
and then with `not_found` carrying `id`; otherwise it returns the value of
`get_noexcept(id)`.  `get_noexcept` is a total function, and a lookup leaves
the state as it is. -/
theorem get_fails_iff_empty {V : Type} [EmptyValue V] [DecidableEq V] (s : FlexMem V) (id : Nat) :
    ((∃ e, s.get id = Except.error e) ↔ s.get_noexcept id = empty_value) ∧
    (s.get id = Except.error ⟨id⟩ ↔ s.get_noexcept id = empty_value) ∧
    (s.get id = Except.ok (s.get_noexcept id) ↔ s.get_noexcept id ≠ empty_value) ∧
    step s (Op.get id) = s ∧ step s (Op.get_noexcept id) = s := by
  unfold FlexMem.get
  by_cases h : s.get_noexcept id = empty_value
  · simp [h, step]
  · simp [h, step]

/-- C5: after `clear()` the state is the one of `FlexMem(false)`: sparse, of
size 0, without blocks, and every lookup returns the empty value. -/
theorem clear_resets {V : Type} [EmptyValue V] (s : FlexMem V) :
    s.clear = FlexMem.init false ∧
    s.clear.is_dense = false ∧
    s.clear.size = 0 ∧
    s.clear.stats = (0, 0) ∧
    ∀ id, s.clear.get_noexcept id = empty_value := by
  refine ⟨rfl, rfl, rfl, rfl, fun id => ?_⟩
  rfl

/-- C6: in dense mode `set(id, v)` makes `get_noexcept(id)` return `v`,
whatever was stored for `id` before. -/
theorem dense_set_then_get {V : Type} [EmptyValue V] (s : FlexMem V) (id : Nat) (v : V)
    (hr : Reachable s) (hd : s.m_dense = true) : (s.set id v).get_noexcept id = v := by
  have hi := Inv_of_reachable s hr
  have hset : s.set id v = { s with m_dense_blocks := write_blocks s.m_dense_blocks id v } := by
    unfold FlexMem.set
    rw [if_pos hd, set_dense_eq]
  rw [hset, get_noexcept_dense]
  · simp only
    rw [slot_write _ _ _ _ hi.1, if_pos rfl]
  · exact hd

/-- Witness of `dense_set_then_get`: identifier 5 is set twice on an index
constructed dense. -/
theorem dense_set_then_get_witness :
    Reachable ((FlexMem.init true).set 5 1 : FlexMem Nat) ∧
    ((FlexMem.init true).set 5 1 : FlexMem Nat).m_dense = true ∧
    (((FlexMem.init true).set 5 1).set 5 2 : FlexMem Nat).get_noexcept 5 = 2 :=
  ⟨⟨true, [Op.set 5 1], rfl⟩, rfl,
    dense_set_then_get _ 5 2 ⟨true, [Op.set 5 1], rfl⟩ rfl⟩

/-- C7: on a sparse index whose entries have pairwise distinct identifiers,
after `sort()` the lookup `get_noexcept` returns the value of the entry with
the identifier looked up, and the empty value where there is no such entry. -/
theorem sorted_sparse_lookup {V : Type} [EmptyValue V] (S : StdSort V) (s : FlexMem V)
    (hm : s.m_dense = false) (hnd : (s.m_sparse_entries.map entry.id).Nodup) :
    (∀ e ∈ s.m_sparse_entries, (s.sort S).get_noexcept e.id = e.value) ∧
    (∀ id, (∀ e ∈ s.m_sparse_entries, e.id ≠ id) →
      (s.sort S).get_noexcept id = empty_value) := by
  constructor
  · intro e he
    obtain ⟨e2, he2, hid, hv⟩ := get_noexcept_sorted_sparse S s e.id hm ⟨e, he, rfl⟩
    have heq : e2 = e := List.inj_on_of_nodup_map hnd he2 he hid
    rw [hv, heq]
  · intro id habs
    rw [get_noexcept_sparse (s.sort S) id hm]
    apply get_sparse_absent
    intro e he
    exact habs e ((S.perm s.m_sparse_entries).mem_iff.mp he)

/-- Witness of `sorted_sparse_lookup`: the entries `(2, 10)` and `(1, 20)`,
inserted in this order. -/
theorem sorted_sparse_lookup_witness :
    (set_all (FlexMem.init false) [(2, 10), (1, 20)] : FlexMem Nat).m_dense = false ∧
    ((set_all (FlexMem.init false) [(2, 10), (1, 20)] : FlexMem Nat).m_sparse_entries.map
      entry.id).Nodup ∧
    ((∀ e ∈ (set_all (FlexMem.init false) [(2, 10), (1, 20)] : FlexMem Nat).m_sparse_entries,
        ((set_all (FlexMem.init false) [(2, 10), (1, 20)]).sort insertion_sort).get_noexcept
          e.id = e.value) ∧
      (∀ id, (∀ e ∈ (set_all (FlexMem.init false) [(2, 10), (1, 20)] :
            FlexMem Nat).m_sparse_entries, e.id ≠ id) →
        ((set_all (FlexMem.init false) [(2, 10), (1, 20)]).sort insertion_sort).get_noexcept
          id = empty_value)) :=
  ⟨by decide, by decide, sorted_sparse_lookup insertion_sort _ (by decide) (by decide)⟩

section capacity
variable {V : Type} [EmptyValue V]

end capacity

section sequences
variable {V : Type}

theorem last_value_of_mem (es : List (entry V)) (hnd : (es.map entry.id).Nodup) (e : entry V)
    (he : e ∈ es) (d : V) : last_value es e.id d = e.value := by
  induction es generalizing d with
  | nil => exact absurd he (List.not_mem_nil e)
  | cons x xs ih =>
    rw [List.map_cons, List.nodup_cons] at hnd
    obtain ⟨hx, hxs⟩ := hnd
    have hstep : last_value (x :: xs) e.id d =
        last_value xs e.id (if x.id = e.id then x.value else d) := rfl
    rw [hstep]
    rcases List.mem_cons.mp he with h1 | h1
    · subst h1
      rw [if_pos rfl]
      apply last_value_absent
      intro y hy hyid
      exact hx (by rw [← hyid]; exact List.mem_map_of_mem _ hy)
    · exact ih hxs h1 _

variable [EmptyValue V]

theorem set_all_append (s : FlexMem V) (ps : List (Nat × V)) (p : Nat × V) :
    set_all s (ps ++ [p]) = (set_all s ps).set p.1 p.2 := by
  unfold set_all
  rw [List.foldl_concat]

/-- Fewer than `min_dense_entries` calls of `set` on a fresh sparse index leave
it sparse; the entries are the pairs in the order of the calls and `m_max_id`
is the largest identifier among them (0 for none). -/
theorem set_all_sparse_below (ps : List (Nat × V)) :
    ps.length < min_dense_entries →
    ∃ m, set_all (FlexMem.init false) ps = ⟨ps.map to_entry, [], m, false⟩ ∧
      (∀ q ∈ ps, q.1 ≤ m) ∧ (m = 0 ∨ ∃ q ∈ ps, q.1 = m) := by
  induction ps using List.reverseRecOn with
  | nil =>
    intro _
    exact ⟨0, rfl, fun q hq => absurd hq (List.not_mem_nil q), Or.inl rfl⟩
  | append_singleton ps p ih =>
    intro hlen
    rw [List.length_append, List.length_singleton] at hlen
    obtain ⟨m, hst, hle, hmax⟩ := ih (by omega)
    rw [set_all_append, hst]
    have hset : (⟨ps.map to_entry, [], m, false⟩ : FlexMem V).set p.1 p.2 =
        (⟨ps.map to_entry, [], m, false⟩ : FlexMem V).set_sparse p.1 p.2 := rfl
    rw [hset]
    rcases set_sparse_cases (⟨ps.map to_entry, [], m, false⟩ : FlexMem V) p.1 p.2 rfl with
      ⟨hs, _⟩ | ⟨_, _, hc, _⟩
    · refine ⟨max m p.1, ?_, ?_, ?_⟩
      · rw [hs]
        simp [to_entry]
      · intro q hq
        rcases List.mem_append.mp hq with h1 | h1
        · have := hle q h1
          omega
        · rw [List.mem_singleton.mp h1]
          omega
      · rcases Nat.le_total m p.1 with h1 | h1
        · right
          exact ⟨p, by simp, by omega⟩
        · rcases hmax with h0 | ⟨q, hq, hqm⟩
          · left
            omega
          · right
            exact ⟨q, List.mem_append_left _ hq, by omega⟩
    · simp only [List.length_map] at hc
      omega

/-- In dense mode a sequence of `set` calls is the loop of `switch_to_dense`
over the same pairs. -/
theorem set_all_dense (ps : List (Nat × V)) :
    ∀ s : FlexMem V, s.m_dense = true →
      set_all s ps = { s with m_dense_blocks := write_all s.m_dense_blocks (ps.map to_entry) } := by
  induction ps with
  | nil => intro s _; rfl
  | cons p ps ih =>
    intro s hd
    have hset : s.set p.1 p.2 = { s with m_dense_blocks := write_blocks s.m_dense_blocks p.1 p.2 } := by
      unfold FlexMem.set
      rw [if_pos hd, set_dense_eq]
    have hstep : set_all s (p :: ps) = set_all (s.set p.1 p.2) ps := rfl
    rw [hstep, hset, ih]
    · rfl
    · exact hd

/-- A sparse index that has migrated during a sequence of `set` calls is in
the state of an index constructed dense that received the same calls. -/
theorem set_all_sparse_or_dense (ps : List (Nat × V)) :
    (∃ m, set_all (FlexMem.init false) ps = ⟨ps.map to_entry, [], m, false⟩) ∨
    set_all (FlexMem.init false) ps = set_all (FlexMem.init true) ps := by
  induction ps using List.reverseRecOn with
  | nil => exact Or.inl ⟨0, rfl⟩
  | append_singleton ps p ih =>
    rcases ih with ⟨m, hst⟩ | heq
    · rw [set_all_append, hst]
      have hset : (⟨ps.map to_entry, [], m, false⟩ : FlexMem V).set p.1 p.2 =
          (⟨ps.map to_entry, [], m, false⟩ : FlexMem V).set_sparse p.1 p.2 := rfl
      rw [hset]
      rcases set_sparse_cases (⟨ps.map to_entry, [], m, false⟩ : FlexMem V) p.1 p.2 rfl with
        ⟨hs, _⟩ | ⟨hs, _⟩
      · left
        refine ⟨max m p.1, ?_⟩
        rw [hs]
        simp [to_entry]
      · right
        rw [hs, set_all_dense _ _ rfl]
        simp [to_entry, FlexMem.init]
    · right
      rw [set_all_append, set_all_append, heq]

end sequences

/-- C4: for pairs with pairwise distinct identifiers, the calls `set` for
each pair and then `sort()` give the same `get_noexcept(id)` for every `id`
on an index constructed dense and on one constructed sparse, whether or not
the heuristic migrates the latter on the way. -/
theorem mode_transparency {V : Type} [EmptyValue V] (S : StdSort V) (ps : List (Nat × V))
    (id : Nat) (hnd : (ps.map Prod.fst).Nodup) :
    ((set_all (FlexMem.init true) ps).sort S).get_noexcept id =
      ((set_all (FlexMem.init false) ps).sort S).get_noexcept id := by
  have hdense : ((set_all (FlexMem.init true) ps).sort S).get_noexcept id =
      last_value (ps.map to_entry) id empty_value := by
    rw [set_all_dense ps _ rfl, get_noexcept_dense _ _ rfl]
    exact slot_write_all _ _ _ blocks_ok_nil
  rcases set_all_sparse_or_dense ps with ⟨m, hst⟩ | heq
  · rw [hdense, hst]
    have hids : (List.map entry.id (ps.map to_entry)) = ps.map Prod.fst := by
      rw [List.map_map]
      rfl
    by_cases hex : ∃ e ∈ ps.map to_entry, e.id = id
    · obtain ⟨e, he, hid, hv⟩ := get_noexcept_sorted_sparse S
        (⟨ps.map to_entry, [], m, false⟩ : FlexMem V) id rfl hex
      rw [hv, ← hid]
      exact last_value_of_mem _ (by rw [hids]; exact hnd) e he _
    · have habs : ∀ e ∈ ps.map to_entry, e.id ≠ id := fun e he hid => hex ⟨e, he, hid⟩
      rw [last_value_absent _ _ _ habs]
      symm
      rw [get_noexcept_sparse _ _ rfl]
      apply get_sparse_absent
      intro e he
      exact habs e ((S.perm _).mem_iff.mp he)
  · rw [heq]

/-- Witness of `mode_transparency`: three pairs, inserted out of order. -/
theorem mode_transparency_witness :
    ([((3 : Nat), (30 : Nat)), (1, 10), (2, 20)].map Prod.fst).Nodup ∧
    ((set_all (FlexMem.init true) [(3, 30), (1, 10), (2, 20)]).sort insertion_sort).get_noexcept 1 =
      ((set_all (FlexMem.init false) [((3 : Nat), (30 : Nat)), (1, 10), (2, 20)]).sort
        insertion_sort).get_noexcept 1 :=
  ⟨by decide, mode_transparency insertion_sort [(3, 30), (1, 10), (2, 20)] 1 (by decide)⟩

/-- C9: on a fresh sparse index, after `set` for the identifiers
`0, 1, ..., n - 1` in this order the index is still sparse for every
`n < min_dense_entries = 0xFFFFFF`, and after `set` for
`0, 1, ..., min_dense_entries - 1` it is dense. -/
theorem heuristic_trigger {V : Type} [EmptyValue V] (f : Nat → V) (n : Nat)
    (hn : n < min_dense_entries) :
    min_dense_entries = 0xFFFFFF ∧
    (set_all (FlexMem.init false) ((List.range n).map (fun i => (i, f i)))).is_dense = false ∧
    (set_all (FlexMem.init false)
      ((List.range min_dense_entries).map (fun i => (i, f i)))).is_dense = true := by
  refine ⟨rfl, ?_, ?_⟩
  · obtain ⟨m, hst, _, _⟩ := set_all_sparse_below ((List.range n).map (fun i => (i, f i)))
      (by rw [List.length_map, List.length_range]; exact hn)
    rw [hst]
    rfl
  · obtain ⟨k, hk⟩ : ∃ k, min_dense_entries = k + 1 := ⟨16777214, rfl⟩
    have hk2 : min_dense_entries = 16777215 := rfl
    have hdf : density_factor = 3 := rfl
    rw [hk, List.range_succ, List.map_append, List.map_singleton, set_all_append]
    obtain ⟨m, hst, _, hmax⟩ := set_all_sparse_below ((List.range k).map (fun i => (i, f i)))
      (by rw [List.length_map, List.length_range]; omega)
    rw [hst]
    have hm : m < k := by
      rcases hmax with h0 | ⟨q, hq, hqm⟩
      · omega
      · obtain ⟨i, hi, rfl⟩ := List.mem_map.mp hq
        have := List.mem_range.mp hi
        simp only at hqm
        omega
    have hset : (⟨((List.range k).map (fun i => (i, f i))).map to_entry, [], m, false⟩ :
          FlexMem V).set k (f k) =
        (⟨((List.range k).map (fun i => (i, f i))).map to_entry, [], m, false⟩ :
          FlexMem V).set_sparse k (f k) := rfl
    rw [hset]
    rcases set_sparse_cases (⟨((List.range k).map (fun i => (i, f i))).map to_entry, [], m,
        false⟩ : FlexMem V) k (f k) rfl with ⟨_, hc⟩ | ⟨hs, _⟩
    · exfalso
      apply hc
      simp only [List.length_map, List.length_range]
      rw [hdf]
      omega
    · rw [hs]
      rfl

/-- Witness of `heuristic_trigger`: five inserts. -/
theorem heuristic_trigger_witness :
    5 < min_dense_entries ∧
    (min_dense_entries = 0xFFFFFF ∧
      (set_all (FlexMem.init false)
        ((List.range 5).map (fun i => (i, i + 1)) : List (Nat × Nat))).is_dense = false ∧
      (set_all (FlexMem.init false)
        ((List.range min_dense_entries).map (fun i => (i, i + 1)) :
          List (Nat × Nat))).is_dense = true) :=
  ⟨by decide, heuristic_trigger (fun i => i + 1) 5 (by decide)⟩

/-- C10: `min_dense_entries = 0xFFFFFF` calls of `set` on a fresh sparse
index, among them an identifier of at least `3 * min_dense_entries`, leave
the index sparse. -/
theorem heuristic_no_trigger {V : Type} [EmptyValue V] (ps : List (Nat × V))
    (hlen : ps.length = min_dense_entries) (hmax : ∃ p ∈ ps, 3 * min_dense_entries ≤ p.1) :
    min_dense_entries = 0xFFFFFF ∧ (set_all (FlexMem.init false) ps).is_dense = false := by
  refine ⟨rfl, ?_⟩
  have hk2 : min_dense_entries = 16777215 := rfl
  have hdf : density_factor = 3 := rfl
  rcases List.eq_nil_or_concat ps with h0 | ⟨l, p, rfl⟩
  · rw [h0] at hlen
    simp only [List.length_nil] at hlen
    omega
  · rw [List.concat_eq_append] at hlen hmax ⊢
    rw [List.length_append, List.length_singleton] at hlen
    obtain ⟨m, hst, hle, _⟩ := set_all_sparse_below l (by omega)
    rw [set_all_append, hst]
    have hset : (⟨l.map to_entry, [], m, false⟩ : FlexMem V).set p.1 p.2 =
        (⟨l.map to_entry, [], m, false⟩ : FlexMem V).set_sparse p.1 p.2 := rfl
    rw [hset]
    rcases set_sparse_cases (⟨l.map to_entry, [], m, false⟩ : FlexMem V) p.1 p.2 rfl with
      ⟨hs, _⟩ | ⟨_, hc1, _, hc3⟩
    · rw [hs]
      rfl
    · exfalso
      simp only [List.length_map] at hc1 hc3
      rw [hdf] at hc3
      obtain ⟨q, hq, hq3⟩ := hmax
      rcases List.mem_append.mp hq with h1 | h1
      · have := hle q h1
        omega
      · rw [List.mem_singleton.mp h1] at hq3
        omega

/-- Witness of `heuristic_no_trigger`: the identifiers
`3 * min_dense_entries + i` for `i < min_dense_entries`. -/
theorem heuristic_no_trigger_witness :
    ((List.range min_dense_entries).map (fun i => (3 * min_dense_entries + i, i + 1)) :
      List (Nat × Nat)).length = min_dense_entries ∧
    (∃ p ∈ ((List.range min_dense_entries).map (fun i => (3 * min_dense_entries + i, i + 1)) :
      List (Nat × Nat)), 3 * min_dense_entries ≤ p.1) ∧
    (min_dense_entries = 0xFFFFFF ∧
      (set_all (FlexMem.init false)
        ((List.range min_dense_entries).map (fun i => (3 * min_dense_entries + i, i + 1)) :
          List (Nat × Nat))).is_dense = false) :=
  have h1 : ((List.range min_dense_entries).map (fun i => (3 * min_dense_entries + i, i + 1)) :
      List (Nat × Nat)).length = min_dense_entries := by
    rw [List.length_map, List.length_range]
  have h2 : ∃ p ∈ ((List.range min_dense_entries).map
      (fun i => (3 * min_dense_entries + i, i + 1)) : List (Nat × Nat)),
      3 * min_dense_entries ≤ p.1 :=
    ⟨(3 * min_dense_entries + 0, 0 + 1),
      List.mem_map.mpr ⟨0, List.mem_range.mpr (by decide), rfl⟩, Nat.le_refl _⟩
  ⟨h1, h2, heuristic_no_trigger _ h1 h2⟩

/-- C11: on a sparse index that holds entries under `id` (one or several),
after `sort()` the lookup `get_noexcept(id)` returns the value of one of
these entries; so it is not the empty value when none of them carries it,
and it is a value that was set for `id`. -/
theorem sparse_duplicates_lookup {V : Type} [EmptyValue V] (S : StdSort V) (s : FlexMem V)
    (id : Nat) (hm : s.m_dense = false) (hex : ∃ e ∈ s.m_sparse_entries, e.id = id) :
    (∃ e ∈ s.m_sparse_entries, e.id = id ∧ (s.sort S).get_noexcept id = e.value) ∧
    ((∀ e ∈ s.m_sparse_entries, e.id = id → e.value ≠ empty_value) →
      (s.sort S).get_noexcept id ≠ empty_value) := by
  obtain ⟨e, he, hid, hv⟩ := get_noexcept_sorted_sparse S s id hm hex
  refine ⟨⟨e, he, hid, hv⟩, fun hne => ?_⟩
  rw [hv]
  exact hne e he hid

/-- Witness of `sparse_duplicates_lookup`: `set(5, 1)`, then `set(5, 2)`. -/
theorem sparse_duplicates_lookup_witness :
    (((FlexMem.init false).set 5 1).set 5 2 : FlexMem Nat).m_dense = false ∧
    (∃ e ∈ (((FlexMem.init false).set 5 1).set 5 2 : FlexMem Nat).m_sparse_entries, e.id = 5) ∧
    ((∃ e ∈ (((FlexMem.init false).set 5 1).set 5 2 : FlexMem Nat).m_sparse_entries,
        e.id = 5 ∧
        ((((FlexMem.init false).set 5 1).set 5 2).sort insertion_sort).get_noexcept 5 =
          e.value) ∧
      ((∀ e ∈ (((FlexMem.init false).set 5 1).set 5 2 : FlexMem Nat).m_sparse_entries,
          e.id = 5 → e.value ≠ empty_value) →
        ((((FlexMem.init false).set 5 1).set 5 2).sort insertion_sort).get_noexcept 5 ≠
          empty_value)) :=
  ⟨by decide, by decide, sparse_duplicates_lookup insertion_sort _ 5 (by decide) (by decide)⟩

/-- C12: calling `switch_to_dense()` twice gives the state of calling it
once, and on an index in dense mode the call changes nothing: the state, and
with it the mode, the block table, the size and every lookup, stay as they
are. -/
theorem switch_to_dense_idempotent {V : Type} [EmptyValue V] (s t : FlexMem V)
    (hd : t.m_dense = true) :
    s.switch_to_dense.switch_to_dense = s.switch_to_dense ∧
    t.switch_to_dense = t ∧
    t.switch_to_dense.is_dense = t.is_dense ∧
    t.switch_to_dense.m_dense_blocks = t.m_dense_blocks ∧
    t.switch_to_dense.size = t.size ∧
    ∀ id, t.switch_to_dense.get_noexcept id = t.get_noexcept id := by
  have h1 : s.switch_to_dense.m_dense = true := by
    cases hm : s.m_dense with
    | true => rw [switch_to_dense_dense s hm]; exact hm
    | false => rw [switch_to_dense_sparse s hm]
  have h2 : t.switch_to_dense = t := switch_to_dense_dense t hd
  refine ⟨switch_to_dense_dense _ h1, h2, ?_, ?_, ?_, ?_⟩
  · rw [h2]
  · rw [h2]
  · rw [h2]
  · intro id
    rw [h2]

/-- Witness of `switch_to_dense_idempotent`: a sparse index with two entries
and a dense index with one value. -/
theorem switch_to_dense_idempotent_witness :
    ((FlexMem.init true).set 5 1 : FlexMem Nat).m_dense = true ∧
    ((set_all (FlexMem.init false) [(2, 1), (1, 2)] : FlexMem Nat).switch_to_dense.switch_to_dense =
        (set_all (FlexMem.init false) [(2, 1), (1, 2)] : FlexMem Nat).switch_to_dense ∧
      ((FlexMem.init true).set 5 1 : FlexMem Nat).switch_to_dense = (FlexMem.init true).set 5 1 ∧
      ((FlexMem.init true).set 5 1 : FlexMem Nat).switch_to_dense.is_dense =
        ((FlexMem.init true).set 5 1 : FlexMem Nat).is_dense ∧
      ((FlexMem.init true).set 5 1 : FlexMem Nat).switch_to_dense.m_dense_blocks =
        ((FlexMem.init true).set 5 1 : FlexMem Nat).m_dense_blocks ∧
      ((FlexMem.init true).set 5 1 : FlexMem Nat).switch_to_dense.size =
        ((FlexMem.init true).set 5 1 : FlexMem Nat).size ∧
      ∀ id, ((FlexMem.init true).set 5 1 : FlexMem Nat).switch_to_dense.get_noexcept id =
        ((FlexMem.init true).set 5 1 : FlexMem Nat).get_noexcept id) :=
  ⟨rfl, switch_to_dense_idempotent _ _ rfl⟩

section one_way
variable {V : Type} [EmptyValue V]

theorem set_dense_mode (s : FlexMem V) (id : Nat) (v : V) (hd : s.m_dense = true) :
    (s.set id v).m_dense = true := by
  unfold FlexMem.set
  rw [if_pos hd, set_dense_eq]
  exact hd

theorem step_dense (s : FlexMem V) (op : Op V) (hd : s.m_dense = true)
    (hop : op ≠ Op.clear) : (step s op).m_dense = true := by
  cases op with
  | set id v => exact set_dense_mode s id v hd
  | get id => exact hd
  | get_noexcept id => exact hd
  | clear => exact absurd rfl hop
  | sort S => exact hd
  | switch_to_dense =>
    simp only [step]
    rw [switch_to_dense_dense s hd]
    exact hd

theorem run_dense (ops : List (Op V)) :
    ∀ s : FlexMem V, s.m_dense = true → Op.clear ∉ ops → (run s ops).m_dense = true := by
  induction ops with
  | nil => intro s hd _; exact hd
  | cons op ops ih =>
    intro s hd hops
    refine ih _ (step_dense s op hd ?_) ?_
    · intro h
      exact hops (by rw [h]; exact List.mem_cons_self _ _)
    · intro h
      exact hops (List.mem_cons_of_mem _ h)

end one_way

/-- C13: an index in dense mode is in dense mode after any sequence of calls
of `set`, `sort`, `switch_to_dense`, `get` and `get_noexcept`; a single call
leaves a dense index sparse exactly when it is `clear`, after which the
state is that of `FlexMem(false)`. -/
theorem dense_is_one_way {V : Type} [EmptyValue V] (s : FlexMem V) (ops : List (Op V))
    (hd : s.m_dense = true) (hops : Op.clear ∉ ops) :
    (run s ops).m_dense = true ∧
    (∀ op, (step s op).m_dense = false ↔ op = Op.clear) ∧
    step s Op.clear = FlexMem.init false := by
  refine ⟨run_dense ops s hd hops, fun op => ⟨fun h => ?_, fun h => ?_⟩, rfl⟩
  · by_contra hne
    rw [step_dense s op hd hne] at h
    exact Bool.noConfusion h
  · rw [h]
    rfl

/-- Witness of `dense_is_one_way`: a migrated index, then `set`, `sort`,
`switch_to_dense` and two lookups. -/
theorem dense_is_one_way_witness :
    ((FlexMem.init false).switch_to_dense : FlexMem Nat).m_dense = true ∧
    Op.clear ∉ [Op.set 7 1, Op.sort insertion_sort, Op.switch_to_dense, Op.get 7,
      Op.get_noexcept (7 : Nat)] ∧
    ((run ((FlexMem.init false).switch_to_dense : FlexMem Nat)
        [Op.set 7 1, Op.sort insertion_sort, Op.switch_to_dense, Op.get 7,
          Op.get_noexcept 7]).m_dense = true ∧
      (∀ op, (step ((FlexMem.init false).switch_to_dense : FlexMem Nat) op).m_dense = false ↔
        op = Op.clear) ∧
      step ((FlexMem.init false).switch_to_dense : FlexMem Nat) Op.clear = FlexMem.init false) :=
  ⟨rfl, by simp, dense_is_one_way _ _ rfl (by simp)⟩

section migration
variable {V : Type}

/-- The fold `last_value` is the value of the entry with the identifier
after which no entry with that identifier follows. -/
theorem last_value_split (pre post : List (entry V)) (e : entry V) (id : Nat) (d : V)
    (hid : e.id = id) (hpost : ∀ x ∈ post, x.id ≠ id) :
    last_value (pre ++ e :: post) id d = e.value := by
  have h : last_value (pre ++ e :: post) id d =
      last_value post id (if e.id = id then e.value else last_value pre id d) := by
    simp only [last_value, List.foldl_append, List.foldl_cons]
  rw [h, if_pos hid]
  exact last_value_absent post id _ hpost

end migration

/-- C14: on a reachable sparse index, sorted or not and with or without
duplicates, `switch_to_dense()` leaves the index dense, and `get_noexcept(id)`
then returns the value of the last entry with identifier `id` in the order of
the sparse sequence, the empty value when there is no entry with `id`. -/
theorem switch_to_dense_last_write_wins {V : Type} [EmptyValue V] (s : FlexMem V) (id : Nat)
    (hr : Reachable s) (hm : s.m_dense = false) :
    s.switch_to_dense.is_dense = true ∧
    s.switch_to_dense.get_noexcept id = last_value s.m_sparse_entries id empty_value ∧
    (∀ pre post e, s.m_sparse_entries = pre ++ e :: post → e.id = id →
      (∀ x ∈ post, x.id ≠ id) → s.switch_to_dense.get_noexcept id = e.value) ∧
    ((∀ e ∈ s.m_sparse_entries, e.id ≠ id) →
      s.switch_to_dense.get_noexcept id = empty_value) := by
  have hi := Inv_of_reachable s hr
  have hb : s.m_dense_blocks = [] := hi.2.1 hm
  have hget : s.switch_to_dense.get_noexcept id =
      last_value s.m_sparse_entries id empty_value := by
    rw [switch_to_dense_sparse s hm, get_noexcept_dense _ _ rfl, hb]
    exact slot_write_all _ _ _ blocks_ok_nil
  refine ⟨?_, hget, ?_, ?_⟩
  · rw [switch_to_dense_sparse s hm]
    rfl
  · intro pre post e hsplit hid hpost
    rw [hget, hsplit]
    exact last_value_split pre post e id _ hid hpost
  · intro habs
    rw [hget]
    exact last_value_absent _ _ _ habs

/-- Witness of `switch_to_dense_last_write_wins`: the unsorted entries
`(5, 1)`, `(2, 7)`, `(5, 2)`. -/
theorem switch_to_dense_last_write_wins_witness :
    Reachable (set_all (FlexMem.init false) [(5, 1), (2, 7), (5, 2)] : FlexMem Nat) ∧
    (set_all (FlexMem.init false) [(5, 1), (2, 7), (5, 2)] : FlexMem Nat).m_dense = false ∧
    ((set_all (FlexMem.init false) [(5, 1), (2, 7), (5, 2)] :
        FlexMem Nat).switch_to_dense.is_dense = true ∧
      (set_all (FlexMem.init false) [(5, 1), (2, 7), (5, 2)] :
        FlexMem Nat).switch_to_dense.get_noexcept 5 =
          last_value (set_all (FlexMem.init false) [(5, 1), (2, 7), (5, 2)] :
            FlexMem Nat).m_sparse_entries 5 empty_value ∧
      (∀ pre post e, (set_all (FlexMem.init false) [(5, 1), (2, 7), (5, 2)] :
          FlexMem Nat).m_sparse_entries = pre ++ e :: post → e.id = 5 →
        (∀ x ∈ post, x.id ≠ 5) →
        (set_all (FlexMem.init false) [(5, 1), (2, 7), (5, 2)] :
          FlexMem Nat).switch_to_dense.get_noexcept 5 = e.value) ∧
      ((∀ e ∈ (set_all (FlexMem.init false) [(5, 1), (2, 7), (5, 2)] :
          FlexMem Nat).m_sparse_entries, e.id ≠ 5) →
        (set_all (FlexMem.init false) [(5, 1), (2, 7), (5, 2)] :
          FlexMem Nat).switch_to_dense.get_noexcept 5 = empty_value)) :=
  ⟨⟨false, [Op.set 5 1, Op.set 2 7, Op.set 5 2], rfl⟩, by decide,
    switch_to_dense_last_write_wins _ 5
      ⟨false, [Op.set 5 1, Op.set 2 7, Op.set 5 2], rfl⟩ (by decide)⟩

/-- C17: on a reachable index in dense mode `sort()` changes nothing: the
state, and with it the mode, `size()`, `stats()` and every
`get_noexcept(id)`, stay as they are. -/
theorem sort_dense_is_noop {V : Type} [EmptyValue V] (S : StdSort V) (s : FlexMem V)
    (hr : Reachable s) (hd : s.m_dense = true) :
    s.sort S = s ∧
    (s.sort S).is_dense = s.is_dense ∧
    (s.sort S).size = s.size ∧
    (s.sort S).stats = s.stats ∧
    ∀ id, (s.sort S).get_noexcept id = s.get_noexcept id := by
  have he : s.m_sparse_entries = [] := (Inv_of_reachable s hr).2.2 hd
  have hrun : S.run s.m_sparse_entries = s.m_sparse_entries := by
    have hp := S.perm s.m_sparse_entries
    rw [he] at hp ⊢
    exact List.Perm.eq_nil hp
  have hs : s.sort S = s := by
    unfold FlexMem.sort
    rw [hrun]
  refine ⟨hs, ?_, ?_, ?_, ?_⟩
  · rw [hs]
  · rw [hs]
  · rw [hs]
  · intro id
    rw [hs]

/-- Witness of `sort_dense_is_noop`: an index constructed dense that holds
one value. -/
theorem sort_dense_is_noop_witness :
    Reachable ((FlexMem.init true).set 5 1 : FlexMem Nat) ∧
    ((FlexMem.init true).set 5 1 : FlexMem Nat).m_dense = true ∧
    ((((FlexMem.init true).set 5 1).sort insertion_sort : FlexMem Nat) =
        (FlexMem.init true).set 5 1 ∧
      (((FlexMem.init true).set 5 1).sort insertion_sort : FlexMem Nat).is_dense =
        ((FlexMem.init true).set 5 1 : FlexMem Nat).is_dense ∧
      (((FlexMem.init true).set 5 1).sort insertion_sort : FlexMem Nat).size =
        ((FlexMem.init true).set 5 1 : FlexMem Nat).size ∧
      (((FlexMem.init true).set 5 1).sort insertion_sort : FlexMem Nat).stats =
        ((FlexMem.init true).set 5 1 : FlexMem Nat).stats ∧
      ∀ id, (((FlexMem.init true).set 5 1).sort insertion_sort : FlexMem Nat).get_noexcept id =
        ((FlexMem.init true).set 5 1 : FlexMem Nat).get_noexcept id) :=
  ⟨⟨true, [Op.set 5 1], rfl⟩, rfl,
    sort_dense_is_noop insertion_sort _ ⟨true, [Op.set 5 1], rfl⟩ rfl⟩

/-- C18: after `set(2, 1)` and `set(1, 2)` on a fresh sparse index, with
distinct identifiers and values that are not empty, and without `sort()`, the
lookups of 2 and of 1 both return the empty value; after `sort()` they
return the values set. -/
theorem lookup_before_sort_is_unreliable :
    ([((2 : Nat), (1 : Nat)), (1, 2)].map Prod.fst).Nodup ∧
    (∀ p ∈ [((2 : Nat), (1 : Nat)), (1, 2)], p.2 ≠ empty_value) ∧
    (set_all (FlexMem.init false) [((2 : Nat), (1 : Nat)), (1, 2)]).is_dense = false ∧
    (set_all (FlexMem.init false) [((2 : Nat), (1 : Nat)), (1, 2)]).get_noexcept 2 =
      empty_value ∧
    (set_all (FlexMem.init false) [((2 : Nat), (1 : Nat)), (1, 2)]).get_noexcept 1 =
      empty_value ∧
    ((set_all (FlexMem.init false) [((2 : Nat), (1 : Nat)), (1, 2)]).sort
      insertion_sort).get_noexcept 2 = 1 ∧
    ((set_all (FlexMem.init false) [((2 : Nat), (1 : Nat)), (1, 2)]).sort
      insertion_sort).get_noexcept 1 = 2 := by
  refine ⟨?_, ?_, ?_, ?_, ?_, ?_, ?_⟩ <;> decide

/-- C20: on a reachable index in dense mode, `set(id, v)` leaves
`get_noexcept(id2)` as it was for every `id2` other than `id`; the pair of
the block number `id / 65536` and the offset `id mod 65536` is different for
different identifiers. -/
theorem dense_set_frame {V : Type} [EmptyValue V] (s : FlexMem V) (id id2 : Nat) (v : V)
    (hr : Reachable s) (hd : s.m_dense = true) (hne : id ≠ id2) :
    (s.set id v).get_noexcept id2 = s.get_noexcept id2 ∧
    (FlexMem.block id, FlexMem.offset id) ≠ (FlexMem.block id2, FlexMem.offset id2) ∧
    FlexMem.block id = id / 65536 ∧ FlexMem.offset id = id % 65536 := by
  have hi := Inv_of_reachable s hr
  have hset : s.set id v = { s with m_dense_blocks := write_blocks s.m_dense_blocks id v } := by
    unfold FlexMem.set
    rw [if_pos hd, set_dense_eq]
  refine ⟨?_, ?_, block_eq_div id, offset_eq_mod id⟩
  · rw [get_noexcept_dense s id2 hd, hset, get_noexcept_dense]
    · simp only
      rw [slot_write _ _ _ _ hi.1, if_neg (fun h => hne h.symm)]
    · exact hd
  · intro h
    have h1 := congrArg Prod.fst h
    have h2 := congrArg Prod.snd h
    exact hne (eq_of_block_offset h1 h2)

/-- Witness of `dense_set_frame`: identifiers 5 and 65541 share the offset,
not the block. -/
theorem dense_set_frame_witness :
    Reachable ((FlexMem.init true).set 5 1 : FlexMem Nat) ∧
    ((FlexMem.init true).set 5 1 : FlexMem Nat).m_dense = true ∧
    65541 ≠ 5 ∧
    ((((FlexMem.init true).set 5 1).set 65541 2 : FlexMem Nat).get_noexcept 5 =
        ((FlexMem.init true).set 5 1 : FlexMem Nat).get_noexcept 5 ∧
      (FlexMem.block 65541, FlexMem.offset 65541) ≠ (FlexMem.block 5, FlexMem.offset 5) ∧
      FlexMem.block 65541 = 65541 / 65536 ∧ FlexMem.offset 65541 = 65541 % 65536) :=
  ⟨⟨true, [Op.set 5 1], rfl⟩, rfl, by decide,
    dense_set_frame _ 65541 5 2 ⟨true, [Op.set 5 1], rfl⟩ rfl (by decide)⟩

/-! ## The largest identifier seen -/

section max_id
variable {V : Type}

theorem max_id_ok_init (use_dense : Bool) : max_id_ok (FlexMem.init use_dense : FlexMem V) :=
  ⟨fun e he => absurd he (List.not_mem_nil e), Or.inl rfl⟩

theorem max_id_ok_sort (S : StdSort V) (s : FlexMem V) (h : max_id_ok s) :
    max_id_ok (s.sort S) := by
  obtain ⟨hle, hmax⟩ := h
  have hp := S.perm s.m_sparse_entries
  refine ⟨fun e he => hle e (hp.mem_iff.mp he), ?_⟩
  rcases hmax with h0 | ⟨e, he, hid⟩
  · exact Or.inl h0
  · exact Or.inr ⟨e, hp.mem_iff.mpr he, hid⟩

variable [EmptyValue V]

theorem max_id_ok_switch_to_dense (s : FlexMem V) (h : max_id_ok s) :
    max_id_ok s.switch_to_dense := by
  cases hm : s.m_dense with
  | true => rw [switch_to_dense_dense s hm]; exact h
  | false =>
    rw [switch_to_dense_sparse s hm]
    exact ⟨fun e he => absurd he (List.not_mem_nil e), Or.inl rfl⟩

theorem max_id_ok_set (s : FlexMem V) (id : Nat) (v : V) (h : max_id_ok s) :
    max_id_ok (s.set id v) := by
  obtain ⟨hle, hmax⟩ := h
  unfold FlexMem.set
  cases hm : s.m_dense with
  | true =>
    simp only [if_true]
    rw [set_dense_eq]
    exact ⟨hle, hmax⟩
  | false =>
    simp only [Bool.false_eq_true, if_false]
    rcases set_sparse_cases s id v hm with ⟨hs, _⟩ | ⟨hs, _⟩
    · rw [hs]
      constructor
      · intro e he
        simp only at he ⊢
        rcases List.mem_append.mp he with h1 | h1
        · have := hle e h1
          omega
        · rw [List.mem_singleton.mp h1]
          simp only
          omega
      · simp only
        rcases Nat.le_total s.m_max_id id with h1 | h1
        · right
          exact ⟨⟨id, v⟩, by simp, by simp only; omega⟩
        · rcases hmax with h0 | ⟨e, he, hid⟩
          · left
            omega
          · right
            exact ⟨e, List.mem_append_left _ he, by omega⟩
    · rw [hs]
      exact ⟨fun e he => absurd he (List.not_mem_nil e), Or.inl rfl⟩

theorem max_id_ok_step (s : FlexMem V) (op : Op V) (h : max_id_ok s) :
    max_id_ok (step s op) := by
  cases op with
  | set id v => exact max_id_ok_set s id v h
  | get id => exact h
  | get_noexcept id => exact h
  | clear => exact ⟨fun e he => absurd he (List.not_mem_nil e), Or.inl rfl⟩
  | sort S => exact max_id_ok_sort S s h
  | switch_to_dense => exact max_id_ok_switch_to_dense s h

theorem max_id_ok_run (ops : List (Op V)) :
    ∀ s : FlexMem V, max_id_ok s → max_id_ok (run s ops) := by
  induction ops with
  | nil => intro s h; exact h
  | cons op ops ih => intro s h; exact ih _ (max_id_ok_step s op h)

theorem max_id_ok_of_reachable (s : FlexMem V) (h : Reachable s) : max_id_ok s := by
  obtain ⟨d, ops, rfl⟩ := h
  exact max_id_ok_run ops _ (max_id_ok_init d)

end max_id

/-- C15: in every state reached from `FlexMem(use_dense)` through the public
methods, a sparse index has an empty block table, so that `stats()` is
`(0, 0)`, and a dense index has no sparse entries and `m_max_id = 0`. -/
theorem one_store_is_live {V : Type} [EmptyValue V] (s : FlexMem V) (hr : Reachable s) :
    (s.m_dense = false → s.m_dense_blocks = [] ∧ s.stats = (0, 0)) ∧
    (s.m_dense = true → s.m_sparse_entries = [] ∧ s.m_max_id = 0) := by
  obtain ⟨_, hs, hd⟩ := Inv_of_reachable s hr
  obtain ⟨_, hmax⟩ := max_id_ok_of_reachable s hr
  constructor
  · intro hm
    have hb := hs hm
    refine ⟨hb, ?_⟩
    unfold FlexMem.stats
    rw [hb]
    rfl
  · intro hm
    have he := hd hm
    refine ⟨he, ?_⟩
    rcases hmax with h0 | ⟨e, hmem, _⟩
    · exact h0
    · rw [he] at hmem
      exact absurd hmem (List.not_mem_nil e)

/-- Witness of `one_store_is_live`: a sparse index with two entries that is
sorted and then migrated, and receives one more `set`. -/
theorem one_store_is_live_witness :
    Reachable (run (FlexMem.init false)
      [Op.set 9 1, Op.set 4 2, Op.sort insertion_sort, Op.switch_to_dense,
        Op.set 70000 (3 : Nat)]) ∧
    (((run (FlexMem.init false)
        [Op.set 9 1, Op.set 4 2, Op.sort insertion_sort, Op.switch_to_dense,
          Op.set 70000 (3 : Nat)]).m_dense = false →
        (run (FlexMem.init false)
          [Op.set 9 1, Op.set 4 2, Op.sort insertion_sort, Op.switch_to_dense,
            Op.set 70000 (3 : Nat)]).m_dense_blocks = [] ∧
        (run (FlexMem.init false)
          [Op.set 9 1, Op.set 4 2, Op.sort insertion_sort, Op.switch_to_dense,
            Op.set 70000 (3 : Nat)]).stats = (0, 0)) ∧
      ((run (FlexMem.init false)
        [Op.set 9 1, Op.set 4 2, Op.sort insertion_sort, Op.switch_to_dense,
          Op.set 70000 (3 : Nat)]).m_dense = true →
        (run (FlexMem.init false)
          [Op.set 9 1, Op.set 4 2, Op.sort insertion_sort, Op.switch_to_dense,
            Op.set 70000 (3 : Nat)]).m_sparse_entries = [] ∧
        (run (FlexMem.init false)
          [Op.set 9 1, Op.set 4 2, Op.sort insertion_sort, Op.switch_to_dense,
            Op.set 70000 (3 : Nat)]).m_max_id = 0)) :=
  ⟨⟨false, _, rfl⟩, one_store_is_live _ ⟨false, _, rfl⟩⟩

/-- C16: on a reachable sparse index with `n` entries, whose `m_max_id` is
the largest identifier among them (0 for none), `set(id, v)` leaves the
index dense exactly when `id > m_max_id`, `n + 1 >= 0xFFFFFF` and
`id < 3 * (n + 1)`; otherwise the index stays sparse with `n + 1` entries and
`m_max_id` becomes the larger of `m_max_id` and `id`. -/
theorem migration_condition {V : Type} [EmptyValue V] (s : FlexMem V) (id : Nat) (v : V)
    (hr : Reachable s) (hm : s.m_dense = false) :
    ((∀ e ∈ s.m_sparse_entries, e.id ≤ s.m_max_id) ∧
      (s.m_max_id = 0 ∨ ∃ e ∈ s.m_sparse_entries, e.id = s.m_max_id)) ∧
    ((s.set id v).is_dense = true ↔
      (id > s.m_max_id ∧ s.m_sparse_entries.length + 1 ≥ 0xFFFFFF ∧
        id < 3 * (s.m_sparse_entries.length + 1))) ∧
    (¬ (id > s.m_max_id ∧ s.m_sparse_entries.length + 1 ≥ 0xFFFFFF ∧
        id < 3 * (s.m_sparse_entries.length + 1)) →
      (s.set id v).is_dense = false ∧
      (s.set id v).m_sparse_entries.length = s.m_sparse_entries.length + 1 ∧
      (s.set id v).size = s.m_sparse_entries.length + 1 ∧
      (s.set id v).m_max_id = max s.m_max_id id) := by
  have hk : min_dense_entries = 0xFFFFFF := rfl
  have hdf : density_factor = 3 := rfl
  have hset : s.set id v = s.set_sparse id v := by
    unfold FlexMem.set
    simp [hm]
  refine ⟨max_id_ok_of_reachable s hr, ?_, ?_⟩
  · rcases set_sparse_cases s id v hm with ⟨hs, hc⟩ | ⟨hs, hc⟩
    · rw [hset, hs]
      constructor
      · intro hd
        simp only [FlexMem.is_dense] at hd
        rw [hm] at hd
        exact Bool.noConfusion hd
      · intro h
        exfalso
        apply hc
        rw [hk, hdf]
        omega
    · rw [hset, hs]
      constructor
      · intro _
        rw [hk, hdf] at hc
        omega
      · intro _
        rfl
  · intro hncond
    rcases set_sparse_cases s id v hm with ⟨hs, _⟩ | ⟨_, hc⟩
    · rw [hset, hs]
      refine ⟨hm, ?_, ?_, rfl⟩
      · simp
      · simp [FlexMem.size, hm]
    · exfalso
      apply hncond
      rw [hk, hdf] at hc
      omega

/-- Witness of `migration_condition`: a sparse index with the entries
`(9, 1)` and `(4, 2)`, then `set(12, 3)`. -/
theorem migration_condition_witness :
    Reachable (set_all (FlexMem.init false) [(9, 1), (4, 2)] : FlexMem Nat) ∧
    (set_all (FlexMem.init false) [(9, 1), (4, 2)] : FlexMem Nat).m_dense = false ∧
    (set_all (FlexMem.init false) [(9, 1), (4, 2)] : FlexMem Nat).m_max_id = 9 ∧
    ((set_all (FlexMem.init false) [(9, 1), (4, 2)] : FlexMem Nat).set 12 3).is_dense = false ∧
    ((set_all (FlexMem.init false) [(9, 1), (4, 2)] : FlexMem Nat).set 12 3).m_max_id = 12 :=
  have h := migration_condition (set_all (FlexMem.init false) [(9, 1), (4, 2)] : FlexMem Nat)
    12 3 ⟨false, [Op.set 9 1, Op.set 4 2], rfl⟩ (by decide)
  ⟨⟨false, [Op.set 9 1, Op.set 4 2], rfl⟩, by decide, by decide,
    (h.2.2 (by decide)).1, (h.2.2 (by decide)).2.2.2⟩

/-! ## Index safety of the dense store -/

section safety
variable {V : Type}

theorem getElem_opt_eq_getD_block (bs : List (List V)) (i : Nat) (h : i < bs.length) :
    bs[i]? = some (bs.getD i []) := by
  rw [List.getD_eq_getElem?_getD, List.getElem?_eq_getElem h]
  rfl

variable [EmptyValue V]

theorem assure_block_checked_eq (s : FlexMem V) (num : Nat) :
    s.assure_block_checked num = some (s.assure_block num) := by
  unfold FlexMem.assure_block_checked FlexMem.assure_block
  by_cases h : num ≥ s.m_dense_blocks.length
  · simp only [h, if_true]
    rw [getElem_opt_eq_getD_block _ _ (by rw [vector_resize_grow _ _ (by omega)]; simp; omega)]
    simp only
    split <;> rfl
  · simp only [h, if_false]
    rw [getElem_opt_eq_getD_block _ _ (by omega)]
    simp only
    split <;> rfl

/-- After `assure_block(block(id))` the block has `block_size` slots. -/
theorem assure_block_full (s : FlexMem V) (num : Nat) (h : blocks_ok s.m_dense_blocks) :
    ((s.assure_block num).m_dense_blocks.getD num []).length = block_size := by
  rw [assure_block_getD]
  by_cases he : (s.m_dense_blocks.getD num []).isEmpty = true
  · rw [if_pos ⟨rfl, he⟩]
    simp
  · rw [if_neg (fun hc => he hc.2)]
    rcases getD_mem_or_nil s.m_dense_blocks num with h0 | hmem
    · rw [h0] at he
      simp at he
    · rcases h _ hmem with h0 | h1
      · rw [h0] at he
        simp at he
      · exact h1

theorem set_dense_checked_eq (s : FlexMem V) (id : Nat) (v : V)
    (h : blocks_ok s.m_dense_blocks) :
    s.set_dense_checked id v = some (s.set_dense id v) := by
  unfold FlexMem.set_dense_checked
  rw [assure_block_checked_eq]
  simp only
  rw [getElem_opt_eq_getD_block _ _ (by rw [assure_block_length]; omega)]
  simp only
  rw [if_pos (by rw [assure_block_full s _ h]; exact offset_lt id)]
  rfl

theorem get_dense_checked_eq (s : FlexMem V) (id : Nat) (h : blocks_ok s.m_dense_blocks) :
    s.get_dense_checked id = some (s.get_dense id) := by
  unfold FlexMem.get_dense_checked FlexMem.get_dense
  by_cases hl : s.m_dense_blocks.length ≤ FlexMem.block id
  · rw [if_pos hl, if_pos (Or.inl hl)]
  · rw [if_neg hl, getElem_opt_eq_getD_block _ _ (by omega)]
    simp only
    by_cases he : (s.m_dense_blocks.getD (FlexMem.block id) []).isEmpty = true
    · rw [if_pos he, if_pos (Or.inr he)]
    · rw [if_neg he, if_neg (fun hc => hc.elim hl he)]
      have hlen : (s.m_dense_blocks.getD (FlexMem.block id) []).length = block_size := by
        rcases getD_mem_or_nil s.m_dense_blocks (FlexMem.block id) with h0 | hmem
        · rw [h0] at he
          simp at he
        · rcases h _ hmem with h0 | h1
          · rw [h0] at he
            simp at he
          · exact h1
      have hlt : FlexMem.offset id < (s.m_dense_blocks.getD (FlexMem.block id) []).length := by
        rw [hlen]
        exact offset_lt id
      rw [List.getD_eq_getElem?_getD _ (FlexMem.offset id), List.getElem?_eq_getElem hlt]
      rfl

theorem foldl_set_dense_checked (es : List (entry V)) :
    ∀ s : FlexMem V, blocks_ok s.m_dense_blocks →
      es.foldl (fun st e => st.bind (fun t => t.set_dense_checked e.id e.value)) (some s) =
        some (es.foldl (fun st e => st.set_dense e.id e.value) s) := by
  induction es with
  | nil => intro s _; rfl
  | cons e es ih =>
    intro s h
    simp only [List.foldl_cons, Option.some_bind]
    rw [set_dense_checked_eq s e.id e.value h]
    apply ih
    rw [set_dense_eq]
    exact blocks_ok_write _ _ _ h

theorem switch_to_dense_checked_eq (s : FlexMem V) (h : blocks_ok s.m_dense_blocks) :
    s.switch_to_dense_checked = some s.switch_to_dense := by
  unfold FlexMem.switch_to_dense_checked FlexMem.switch_to_dense
  cases hm : s.m_dense with
  | true => rfl
  | false =>
    simp only [Bool.false_eq_true, if_false]
    rw [foldl_set_dense_checked _ _ h]

theorem set_checked_eq (s : FlexMem V) (id : Nat) (v : V) (h : blocks_ok s.m_dense_blocks) :
    s.set_checked id v = some (s.set id v) := by
  unfold FlexMem.set_checked FlexMem.set
  cases hm : s.m_dense with
  | true =>
    simp only [if_true]
    exact set_dense_checked_eq s id v h
  | false =>
    simp only [Bool.false_eq_true, if_false]
    unfold FlexMem.set_sparse_checked FlexMem.set_sparse
    dsimp only
    split
    · split
      · split
        · exact switch_to_dense_checked_eq _ h
        · rfl
      · rfl
    · rfl

theorem get_noexcept_checked_eq (s : FlexMem V) (id : Nat)
    (h : blocks_ok s.m_dense_blocks) :
    s.get_noexcept_checked id = some (s.get_noexcept id) := by
  unfold FlexMem.get_noexcept_checked FlexMem.get_noexcept
  cases hm : s.m_dense with
  | true =>
    simp only [if_true]
    exact get_dense_checked_eq s id h
  | false => rfl

/-- A block that is allocated keeps its length through `set`. -/
theorem set_keeps_blocks (s : FlexMem V) (id : Nat) (v : V) (hi : Inv s) (i : Nat)
    (hne : s.m_dense_blocks.getD i [] ≠ []) :
    ((s.set id v).m_dense_blocks.getD i []).length = (s.m_dense_blocks.getD i []).length := by
  cases hm : s.m_dense with
  | false =>
    exfalso
    apply hne
    rw [hi.2.1 hm]
    rfl
  | true =>
    have hset : s.set id v = { s with m_dense_blocks := write_blocks s.m_dense_blocks id v } := by
      unfold FlexMem.set
      rw [if_pos hm, set_dense_eq]
    rw [hset]
    simp only
    rw [write_blocks_getD]
    have hemp : ¬ (s.m_dense_blocks.getD i []).isEmpty = true := by
      intro hc
      apply hne
      simpa using hc
    by_cases hib : i = FlexMem.block id
    · rw [if_pos hib, if_neg hemp, List.length_set]
    · rw [if_neg hib]

end safety

/-- C19: in every reachable state each block of the table is absent or has
exactly 65536 slots; `set` leaves every allocated block allocated, with its
65536 slots; and the bounds-checked `set`, `get_noexcept`,
`switch_to_dense`, `set_dense` and `get_dense` never take their out-of-range
branch: they return the result of the unchecked methods. -/
theorem block_table_is_safe {V : Type} [EmptyValue V] (s : FlexMem V) (id : Nat) (v : V)
    (hr : Reachable s) :
    (∀ b ∈ s.m_dense_blocks, b.length = 0 ∨ b.length = 65536) ∧
    (∀ i, s.m_dense_blocks.getD i [] ≠ [] →
      (s.m_dense_blocks.getD i []).length = 65536 ∧
      ((s.set id v).m_dense_blocks.getD i []).length = 65536) ∧
    s.set_checked id v = some (s.set id v) ∧
    s.get_noexcept_checked id = some (s.get_noexcept id) ∧
    s.switch_to_dense_checked = some s.switch_to_dense ∧
    s.set_dense_checked id v = some (s.set_dense id v) ∧
    s.get_dense_checked id = some (s.get_dense id) := by
  have hi := Inv_of_reachable s hr
  have hb := hi.1
  refine ⟨?_, ?_, set_checked_eq s id v hb, get_noexcept_checked_eq s id hb,
    switch_to_dense_checked_eq s hb, set_dense_checked_eq s id v hb,
    get_dense_checked_eq s id hb⟩
  · intro b hmem
    rcases hb b hmem with h0 | h1
    · left
      rw [h0]
      rfl
    · right
      exact h1
  · intro i hne
    have hlen : (s.m_dense_blocks.getD i []).length = 65536 := by
      rcases getD_mem_or_nil s.m_dense_blocks i with h0 | hmem
      · exact absurd h0 hne
      · rcases hb _ hmem with h0 | h1
        · exact absurd h0 hne
        · exact h1
    exact ⟨hlen, by rw [set_keeps_blocks s id v hi i hne]; exact hlen⟩

/-- Witness of `block_table_is_safe`: a dense index that holds one value. -/
theorem block_table_is_safe_witness :
    Reachable ((FlexMem.init true).set 70000 1 : FlexMem Nat) ∧
    ((FlexMem.init true).set 70000 1 : FlexMem Nat).set_checked 5 2 =
      some (((FlexMem.init true).set 70000 1 : FlexMem Nat).set 5 2) ∧
    ((FlexMem.init true).set 70000 1 : FlexMem Nat).get_noexcept_checked 5 =
      some (((FlexMem.init true).set 70000 1 : FlexMem Nat).get_noexcept 5) :=
  have h := block_table_is_safe ((FlexMem.init true).set 70000 1 : FlexMem Nat) 5 2
    ⟨true, [Op.set 70000 1], rfl⟩
  ⟨⟨true, [Op.set 70000 1], rfl⟩, h.2.2.1, h.2.2.2.1⟩

end osmium
